import Mathlib

/-!
Verification of the parking-resource allocator (sim/src/mechanics/parking.rs).

The development shallowly embeds the `ParkingSimState` store and its public
operations.  Machine maps (`BTreeMap`, `MultiMap`, `BTreeSet`) are embedded as
association lists with explicit lookup/insert/erase operations; `f64` distances
are embedded as exact rationals; fallible code (Rust `assert!`/`panic!`/map
indexing) is embedded with `Except`/`Option`, where the error/none branch is
the fatal-failure path.  The external map collaborator (`map_model::Map`) is
not part of the repository sources; it is embedded as an opaque record of the
queries the parking code issues against it.
-/

/-! ### Opaque identifiers from the map collaborator -/

abbrev LaneID := Nat
abbrev BuildingID := Nat
abbrev ParkingLotID := Nat
abbrev CarID := Nat
abbrev PersonID := Nat

/-- Distances (`geom::Distance`, an `f64` in meters) are embedded as exact
rationals. -/
abbrev Dst := ℚ

/-! ### Association-list helpers (embedding of BTreeMap / BTreeSet / MultiMap) -/

/-- Lookup in an association list (embedding of `BTreeMap::get`). -/
def lookupA {α β : Type} [DecidableEq α] (k : α) : List (α × β) → Option β
  | [] => none
  | (k', v) :: rest => if k' = k then some v else lookupA k rest

/-- Key membership (embedding of `BTreeMap::contains_key`). -/
def containsKey {α β : Type} [DecidableEq α] (k : α) (m : List (α × β)) : Bool :=
  (lookupA k m).isSome

/-- Remove a key (embedding of `BTreeMap::remove`'s effect on the map). -/
def eraseA {α β : Type} [DecidableEq α] (k : α) : List (α × β) → List (α × β)
  | [] => []
  | kv :: rest => if kv.1 = k then eraseA k rest else kv :: eraseA k rest

/-- Insert a key (embedding of `BTreeMap::insert`; keys are unique). -/
def insertA {α β : Type} [DecidableEq α] (k : α) (v : β) (m : List (α × β)) : List (α × β) :=
  (k, v) :: eraseA k m

/-- All values bound to a key (embedding of `MultiMap::get`). -/
def multiGet {α β : Type} [DecidableEq α] (m : List (α × β)) (k : α) : List β :=
  m.filterMap (fun kv => if kv.1 = k then some kv.2 else none)

/-- Insert into a multimap (embedding of `MultiMap::insert`; the underlying
value sets collapse duplicates). -/
def multiInsert {α β : Type} [DecidableEq α] [DecidableEq β] (k : α) (v : β)
    (m : List (α × β)) : List (α × β) :=
  if (k, v) ∈ m then m else m ++ [(k, v)]

/-- Set insertion (embedding of `BTreeSet::insert`). -/
def insertSet {α : Type} [DecidableEq α] (x : α) (s : List α) : List α :=
  if x ∈ s then s else x :: s

/-- Set removal; returns whether the element was present (embedding of
`BTreeSet::remove`). -/
def removeSet {α : Type} [DecidableEq α] (x : α) (s : List α) : Bool × List α :=
  (decide (x ∈ s), s.filter (fun y => y ≠ x))

/-! ### Data model -/

/-- `sim::ParkingSpot`: tagged variant over the three spot kinds. -/
inductive ParkingSpot where
  | onstreet (lane : LaneID) (idx : Nat)
  | offstreet (b : BuildingID) (idx : Nat)
  | lot (pl : ParkingLotID) (idx : Nat)
deriving DecidableEq, Repr

/-- `sim::Vehicle` (the fields the parking code reads). -/
structure Vehicle where
  id : CarID
  length : Dst
  owner : Option PersonID
deriving DecidableEq, Repr

/-- `sim::ParkedCar`: a vehicle bound to exactly one spot. -/
structure ParkedCar where
  vehicle : Vehicle
  spot : ParkingSpot
deriving DecidableEq, Repr

/-- `sim::Event` (the two variants emitted by the parking store). -/
inductive Event where
  | carReachedParkingSpot (c : CarID) (s : ParkingSpot)
  | carLeftParkingSpot (c : CarID) (s : ParkingSpot)
deriving DecidableEq, Repr

/-- `map_model::Position`: a point along a lane. -/
structure Position where
  lane : LaneID
  dist : Dst
deriving DecidableEq, Repr

/-- `map_model::PARKING_SPOT_LENGTH` (a fixed global constant; its numeric
value is irrelevant to every property proved here). -/
def PARKING_SPOT_LENGTH : Dst := 8

/-- `ParkingLane` (parking.rs): per-lane spot geometry helper. -/
structure ParkingLane where
  parking_lane : LaneID
  driving_lane : LaneID
  sidewalk : LaneID
  spot_dist_along : List Dst
deriving DecidableEq, Repr

/-- `ParkingSimState` (parking.rs): the parking store. -/
structure ParkingSimState where
  parked_cars : List (CarID × ParkedCar)
  occupants : List (ParkingSpot × CarID)
  reserved_spots : List ParkingSpot
  onstreet_lanes : List (LaneID × ParkingLane)
  driving_to_parking_lanes : List (LaneID × LaneID)
  num_spots_per_offstreet : List (BuildingID × Nat)
  driving_to_offstreet : List (LaneID × BuildingID)
  num_spots_per_lot : List (ParkingLotID × Nat)
  driving_to_lots : List (LaneID × ParkingLotID)
  events : List Event
deriving DecidableEq, Repr

/-! ### Store queries and mutations

Mutating operations that contain `assert!`/`expect`/map-indexing return
`Except ParkingSimState ParkingSimState`: `ok` is normal return, `error` is
the fatal-failure (panic) path, carrying the state at the moment of failure. -/

/-- `ParkingSimState::is_free`. -/
def ParkingSimState.is_free (self : ParkingSimState) (spot : ParkingSpot) : Bool :=
  !(containsKey spot self.occupants) && !(decide (spot ∈ self.reserved_spots))

/-- The index-bounds sanity check performed by `reserve_spot` (spot index in
range for its lane / building / lot; a missing key is a Rust indexing panic). -/
def ParkingSimState.spotBounded (self : ParkingSimState) (spot : ParkingSpot) : Bool :=
  match spot with
  | .onstreet l idx =>
    match lookupA l self.onstreet_lanes with
    | some lane => decide (idx < lane.spot_dist_along.length)
    | none => false
  | .offstreet b idx =>
    match lookupA b self.num_spots_per_offstreet with
    | some n => decide (idx < n)
    | none => false
  | .lot pl idx =>
    match lookupA pl self.num_spots_per_lot with
    | some n => decide (idx < n)
    | none => false

/-- `ParkingSimState::reserve_spot`: assert freedom, insert into
`reserved_spots`, then sanity-check the spot exists. -/
def ParkingSimState.reserve_spot (self : ParkingSimState) (spot : ParkingSpot) :
    Except ParkingSimState ParkingSimState :=
  if !self.is_free spot then .error self
  else
    let st := { self with reserved_spots := insertSet spot self.reserved_spots }
    if st.spotBounded spot then .ok st else .error st

/-- `ParkingSimState::remove_parked_car`. -/
def ParkingSimState.remove_parked_car (self : ParkingSimState) (p : ParkedCar) :
    Except ParkingSimState ParkingSimState :=
  match lookupA p.vehicle.id self.parked_cars with
  | none => .error self
  | some _ =>
    let st1 := { self with parked_cars := eraseA p.vehicle.id self.parked_cars }
    match lookupA p.spot st1.occupants with
    | none => .error st1
    | some _ =>
      .ok { st1 with
              occupants := eraseA p.spot st1.occupants,
              events := st1.events ++ [Event.carLeftParkingSpot p.vehicle.id p.spot] }

/-- `ParkingSimState::add_parked_car`: the event is pushed first, then the
three preconditions are asserted in order. -/
def ParkingSimState.add_parked_car (self : ParkingSimState) (p : ParkedCar) :
    Except ParkingSimState ParkingSimState :=
  let st0 := { self with
                events := self.events ++ [Event.carReachedParkingSpot p.vehicle.id p.spot] }
  let rem := removeSet p.spot st0.reserved_spots
  if !rem.1 then .error st0
  else
    let st1 := { st0 with reserved_spots := rem.2 }
    if containsKey p.spot st1.occupants then .error st1
    else
      let st2 := { st1 with occupants := insertA p.spot p.vehicle.id st1.occupants }
      if containsKey p.vehicle.id st2.parked_cars then .error st2
      else .ok { st2 with parked_cars := insertA p.vehicle.id p st2.parked_cars }

/-- `ParkingSimState::collect_events`: drain and return the buffered events. -/
def ParkingSimState.collect_events (self : ParkingSimState) :
    List Event × ParkingSimState :=
  (self.events, { self with events := [] })


/-! ### Basic association-list lemmas -/

theorem containsKey_eq_false_iff {α β : Type} [DecidableEq α]
    {k : α} {m : List (α × β)} : containsKey k m = false ↔ lookupA k m = none := by
  unfold containsKey
  cases lookupA k m <;> simp

theorem lookupA_mem {α β : Type} [DecidableEq α]
    {k : α} {m : List (α × β)} {v : β} (h : lookupA k m = some v) : (k, v) ∈ m := by
  induction m with
  | nil => simp [lookupA] at h
  | cons kv rest ih =>
    unfold lookupA at h
    by_cases hk : kv.1 = k
    · rw [if_pos hk] at h
      have hv : kv.2 = v := by exact Option.some.inj h
      have : kv = (k, v) := by
        cases kv
        simp at hk hv
        simp [hk, hv]
      rw [← this]
      exact List.mem_cons_self kv rest
    · rw [if_neg hk] at h
      exact List.mem_cons_of_mem _ (ih h)

theorem lookupA_eraseA_ne {α β : Type} [DecidableEq α]
    {k k' : α} (m : List (α × β)) (h : k ≠ k') :
    lookupA k (eraseA k' m) = lookupA k m := by
  induction m with
  | nil => rfl
  | cons kv rest ih =>
    unfold eraseA
    by_cases hk : kv.1 = k'
    · rw [if_pos hk]
      rw [ih]
      have hne : kv.1 ≠ k := by rw [hk]; exact fun hh => h hh.symm
      conv_rhs => unfold lookupA
      rw [if_neg hne]
    · rw [if_neg hk]
      unfold lookupA
      by_cases hk2 : kv.1 = k
      · rw [if_pos hk2, if_pos hk2]
      · rw [if_neg hk2, if_neg hk2]
        exact ih

theorem lookupA_eraseA_self {α β : Type} [DecidableEq α]
    (k : α) (m : List (α × β)) : lookupA k (eraseA k m) = none := by
  induction m with
  | nil => rfl
  | cons kv rest ih =>
    unfold eraseA
    by_cases hk : kv.1 = k
    · rw [if_pos hk]; exact ih
    · rw [if_neg hk]
      unfold lookupA
      rw [if_neg hk]
      exact ih

theorem mem_eraseA {α β : Type} [DecidableEq α]
    {k : α} {kv : α × β} {m : List (α × β)} :
    kv ∈ eraseA k m ↔ kv ∈ m ∧ kv.1 ≠ k := by
  induction m with
  | nil => simp [eraseA]
  | cons kv' rest ih =>
    unfold eraseA
    by_cases hk : kv'.1 = k
    · rw [if_pos hk, ih]
      constructor
      · rintro ⟨h1, h2⟩
        exact ⟨List.mem_cons_of_mem _ h1, h2⟩
      · rintro ⟨h1, h2⟩
        rcases List.mem_cons.mp h1 with h | h
        · exact absurd (h ▸ hk) h2
        · exact ⟨h, h2⟩
    · rw [if_neg hk]
      constructor
      · intro h
        rcases List.mem_cons.mp h with h | h
        · exact ⟨h ▸ List.mem_cons_self _ _, h ▸ hk⟩
        · rcases ih.mp h with ⟨h1, h2⟩
          exact ⟨List.mem_cons_of_mem _ h1, h2⟩
      · rintro ⟨h1, h2⟩
        rcases List.mem_cons.mp h1 with h | h
        · exact h ▸ List.mem_cons_self _ _
        · exact List.mem_cons_of_mem _ (ih.mpr ⟨h, h2⟩)

theorem lookupA_insertA_self {α β : Type} [DecidableEq α]
    (k : α) (v : β) (m : List (α × β)) : lookupA k (insertA k v m) = some v := by
  unfold insertA lookupA
  rw [if_pos rfl]

theorem lookupA_insertA_ne {α β : Type} [DecidableEq α]
    {k k' : α} (v : β) (m : List (α × β)) (h : k ≠ k') :
    lookupA k (insertA k' v m) = lookupA k m := by
  unfold insertA
  conv_lhs => unfold lookupA
  rw [if_neg (fun hh => h hh.symm)]
  exact lookupA_eraseA_ne m h

theorem eraseA_of_lookupA_none {α β : Type} [DecidableEq α]
    {k : α} {m : List (α × β)} (h : lookupA k m = none) : eraseA k m = m := by
  induction m with
  | nil => rfl
  | cons kv rest ih =>
    unfold lookupA at h
    unfold eraseA
    by_cases hk : kv.1 = k
    · rw [if_pos hk] at h; exact absurd h (by simp)
    · rw [if_neg hk] at h
      rw [if_neg hk, ih h]

theorem mem_removeSet {α : Type} [DecidableEq α]
    {x y : α} {s : List α} : y ∈ (removeSet x s).2 ↔ y ∈ s ∧ y ≠ x := by
  unfold removeSet
  simp [List.mem_filter]

theorem mem_insertSet {α : Type} [DecidableEq α]
    {x y : α} {s : List α} : y ∈ insertSet x s ↔ y = x ∨ y ∈ s := by
  unfold insertSet
  by_cases h : x ∈ s
  · rw [if_pos h]
    constructor
    · exact Or.inr
    · rintro (rfl | hy)
      · exact h
      · exact hy
  · rw [if_neg h]
    simp

/-! ### Post-states of the successful mutating operations (read off the code) -/

/-- The state produced by a successful `reserve_spot`. -/
def afterReserve (st : ParkingSimState) (s : ParkingSpot) : ParkingSimState :=
  { st with reserved_spots := insertSet s st.reserved_spots }

/-- The state produced by a successful `add_parked_car`. -/
def afterAdd (st : ParkingSimState) (p : ParkedCar) : ParkingSimState :=
  { st with
      events := st.events ++ [Event.carReachedParkingSpot p.vehicle.id p.spot],
      reserved_spots := (removeSet p.spot st.reserved_spots).2,
      occupants := insertA p.spot p.vehicle.id st.occupants,
      parked_cars := insertA p.vehicle.id p st.parked_cars }

/-- The state produced by a successful `remove_parked_car`. -/
def afterRemove (st : ParkingSimState) (p : ParkedCar) : ParkingSimState :=
  { st with
      parked_cars := eraseA p.vehicle.id st.parked_cars,
      occupants := eraseA p.spot st.occupants,
      events := st.events ++ [Event.carLeftParkingSpot p.vehicle.id p.spot] }

/-- Invariant 2 of the spec, phrased over the entries of the two maps:
`parked_cars` and `occupants` are mutual inverses. -/
def inversesB (st : ParkingSimState) : Bool :=
  st.parked_cars.all (fun vp => decide (lookupA vp.2.spot st.occupants = some vp.1)) &&
  st.occupants.all (fun sv =>
    match lookupA sv.2 st.parked_cars with
    | some p => decide (p.spot = sv.1)
    | none => false)

theorem is_free_parts {st : ParkingSimState} {s : ParkingSpot} :
    st.is_free s = true ↔ containsKey s st.occupants = false ∧ s ∉ st.reserved_spots := by
  unfold ParkingSimState.is_free
  cases h : containsKey s st.occupants <;> simp [h]

theorem spotBounded_reserved_invariant (st : ParkingSimState) (s : ParkingSpot)
    (x : List ParkingSpot) :
    ({ st with reserved_spots := x } : ParkingSimState).spotBounded s = st.spotBounded s := rfl

theorem reserve_spot_ok_iff {st st' : ParkingSimState} {s : ParkingSpot} :
    st.reserve_spot s = .ok st' ↔
      st.is_free s = true ∧ st.spotBounded s = true ∧ st' = afterReserve st s := by
  unfold ParkingSimState.reserve_spot afterReserve
  by_cases hf : st.is_free s = true
  · rw [hf]
    simp only [Bool.not_true, Bool.false_eq_true, if_false]
    rw [spotBounded_reserved_invariant st s]
    by_cases hb : st.spotBounded s = true
    · simp [hb, eq_comm]
    · simp [hb]
  · have hf' : st.is_free s = false := by
      revert hf; cases st.is_free s <;> simp
    rw [hf']
    simp [hf']

theorem reserve_spot_error_iff {st : ParkingSimState} {s : ParkingSpot} :
    (∃ e, st.reserve_spot s = .error e) ↔
      ¬(st.is_free s = true ∧ st.spotBounded s = true) := by
  constructor
  · rintro ⟨e, he⟩ ⟨hf, hb⟩
    have : st.reserve_spot s = .ok (afterReserve st s) :=
      reserve_spot_ok_iff.mpr ⟨hf, hb, rfl⟩
    rw [this] at he
    exact Except.noConfusion he
  · intro h
    cases hr : st.reserve_spot s with
    | error e => exact ⟨e, rfl⟩
    | ok st' => exact absurd (reserve_spot_ok_iff.mp hr) (fun hh => h ⟨hh.1, hh.2.1⟩)

theorem add_parked_car_ok_iff {st st' : ParkingSimState} {p : ParkedCar} :
    st.add_parked_car p = .ok st' ↔
      p.spot ∈ st.reserved_spots ∧
      containsKey p.spot st.occupants = false ∧
      containsKey p.vehicle.id st.parked_cars = false ∧
      st' = afterAdd st p := by
  unfold ParkingSimState.add_parked_car afterAdd
  simp only [removeSet]
  by_cases hr : p.spot ∈ st.reserved_spots
  · rw [decide_eq_true hr]
    simp only [Bool.not_true, Bool.false_eq_true, if_false]
    by_cases ho : containsKey p.spot st.occupants
    · simp [ho]
    · have ho' : containsKey p.spot st.occupants = false := by
        revert ho; cases containsKey p.spot st.occupants <;> simp
      simp only [ho', Bool.false_eq_true, if_false]
      by_cases hc : containsKey p.vehicle.id st.parked_cars
      · simp [hc]
      · have hc' : containsKey p.vehicle.id st.parked_cars = false := by
          revert hc; cases containsKey p.vehicle.id st.parked_cars <;> simp
        simp only [hc', Bool.false_eq_true, if_false, Except.ok.injEq]
        simp [hr, ho', hc', eq_comm]
  · have hr' : decide (p.spot ∈ st.reserved_spots) = false := by
      simp [hr]
    simp [hr', hr]

theorem remove_parked_car_ok_iff {st st' : ParkingSimState} {p : ParkedCar} :
    st.remove_parked_car p = .ok st' ↔
      containsKey p.vehicle.id st.parked_cars = true ∧
      containsKey p.spot st.occupants = true ∧
      st' = afterRemove st p := by
  unfold ParkingSimState.remove_parked_car afterRemove containsKey
  cases hv : lookupA p.vehicle.id st.parked_cars with
  | none => simp
  | some q =>
    cases ho : lookupA p.spot st.occupants with
    | none => simp [ho]
    | some c => simp [ho, eq_comm]

theorem inversesB_iff {st : ParkingSimState} :
    inversesB st = true ↔
      ((∀ v p, (v, p) ∈ st.parked_cars → lookupA p.spot st.occupants = some v) ∧
       (∀ s v, (s, v) ∈ st.occupants →
          ∃ q, lookupA v st.parked_cars = some q ∧ q.spot = s)) := by
  unfold inversesB
  rw [Bool.and_eq_true, List.all_eq_true, List.all_eq_true]
  constructor
  · rintro ⟨h1, h2⟩
    refine ⟨fun v p hm => ?_, fun s v hm => ?_⟩
    · exact of_decide_eq_true (h1 (v, p) hm)
    · have hx := h2 (s, v) hm
      cases hq : lookupA v st.parked_cars with
      | none => rw [hq] at hx; exact absurd hx (by simp)
      | some q =>
        rw [hq] at hx
        exact ⟨q, rfl, of_decide_eq_true hx⟩
  · rintro ⟨h1, h2⟩
    refine ⟨fun vp hm => ?_, fun sv hm => ?_⟩
    · exact decide_eq_true (h1 vp.1 vp.2 hm)
    · obtain ⟨q, hq, hs⟩ := h2 sv.1 sv.2 hm
      rw [hq]
      exact decide_eq_true hs

/-! ### Concrete example stores used by witnesses and counterexamples -/

/-- A store with no spots and no cars. -/
def emptyStore : ParkingSimState := ⟨[], [], [], [], [], [], [], [], [], []⟩

/-- A store indexing a single parking lot with two spots. -/
def lotStore : ParkingSimState := { emptyStore with num_spots_per_lot := [(1, 2)] }

/-- A parked car used by witnesses. -/
def pW : ParkedCar := ⟨⟨7, 4, none⟩, ParkingSpot.lot 1 0⟩

/-- C1: for every store state and spot s, `is_free s` returns true iff s is
not a key of `occupants` and s is not a member of `reserved_spots`. -/
theorem C1_is_free_iff (st : ParkingSimState) (s : ParkingSpot) :
    st.is_free s = true ↔ lookupA s st.occupants = none ∧ s ∉ st.reserved_spots := by
  rw [is_free_parts, containsKey_eq_false_iff]

/-- C1 witness: evaluation of the theorem at a concrete store and spot. -/
theorem C1_is_free_iff_witness :
    lookupA (ParkingSpot.lot 1 0) emptyStore.occupants = none ∧
      ParkingSpot.lot 1 0 ∉ emptyStore.reserved_spots :=
  (C1_is_free_iff emptyStore (ParkingSpot.lot 1 0)).mp (by decide)

/-- C2: from a state where `p.spot` is free and index-bounded and `p.vehicle.id`
is not parked, `reserve_spot` then `add_parked_car` both return normally,
moving the spot free → reserved → occupied, after which `is_free` is false and
the spot is no longer reserved. -/
theorem C2_two_phase (st : ParkingSimState) (p : ParkedCar)
    (hfree : st.is_free p.spot = true)
    (hbound : st.spotBounded p.spot = true)
    (hcar : containsKey p.vehicle.id st.parked_cars = false) :
    st.reserve_spot p.spot = .ok (afterReserve st p.spot) ∧
    p.spot ∈ (afterReserve st p.spot).reserved_spots ∧
    (afterReserve st p.spot).add_parked_car p = .ok (afterAdd (afterReserve st p.spot) p) ∧
    lookupA p.spot (afterAdd (afterReserve st p.spot) p).occupants = some p.vehicle.id ∧
    lookupA p.vehicle.id (afterAdd (afterReserve st p.spot) p).parked_cars = some p ∧
    (afterAdd (afterReserve st p.spot) p).is_free p.spot = false ∧
    p.spot ∉ (afterAdd (afterReserve st p.spot) p).reserved_spots := by
  obtain ⟨hocc, hres⟩ := is_free_parts.mp hfree
  have h1 : st.reserve_spot p.spot = .ok (afterReserve st p.spot) :=
    reserve_spot_ok_iff.mpr ⟨hfree, hbound, rfl⟩
  have hmem : p.spot ∈ (afterReserve st p.spot).reserved_spots :=
    mem_insertSet.mpr (Or.inl rfl)
  have hocc1 : containsKey p.spot (afterReserve st p.spot).occupants = false := hocc
  have hcar1 : containsKey p.vehicle.id (afterReserve st p.spot).parked_cars = false := hcar
  have h2 : (afterReserve st p.spot).add_parked_car p
      = .ok (afterAdd (afterReserve st p.spot) p) :=
    add_parked_car_ok_iff.mpr ⟨hmem, hocc1, hcar1, rfl⟩
  refine ⟨h1, hmem, h2, ?_, ?_, ?_, ?_⟩
  · exact lookupA_insertA_self p.spot p.vehicle.id (afterReserve st p.spot).occupants
  · exact lookupA_insertA_self p.vehicle.id p (afterReserve st p.spot).parked_cars
  · unfold ParkingSimState.is_free
    have hck : containsKey p.spot (afterAdd (afterReserve st p.spot) p).occupants = true := by
      unfold containsKey
      rw [show (afterAdd (afterReserve st p.spot) p).occupants
            = insertA p.spot p.vehicle.id (afterReserve st p.spot).occupants from rfl]
      rw [lookupA_insertA_self]
      rfl
    rw [hck]
    rfl
  · intro hmem2
    have hx := mem_removeSet.mp hmem2
    exact hx.2 rfl

/-- C2 witness: the protocol run on a concrete store with one free lot spot. -/
theorem C2_two_phase_witness :
    lotStore.reserve_spot pW.spot = .ok (afterReserve lotStore pW.spot) ∧
    pW.spot ∈ (afterReserve lotStore pW.spot).reserved_spots ∧
    (afterReserve lotStore pW.spot).add_parked_car pW
      = .ok (afterAdd (afterReserve lotStore pW.spot) pW) ∧
    lookupA pW.spot (afterAdd (afterReserve lotStore pW.spot) pW).occupants
      = some pW.vehicle.id ∧
    lookupA pW.vehicle.id (afterAdd (afterReserve lotStore pW.spot) pW).parked_cars
      = some pW ∧
    (afterAdd (afterReserve lotStore pW.spot) pW).is_free pW.spot = false ∧
    pW.spot ∉ (afterAdd (afterReserve lotStore pW.spot) pW).reserved_spots :=
  C2_two_phase lotStore pW (by decide) (by decide) (by decide)

/-- C3: `reserve_spot` fails fatally exactly when its precondition (spot free
and index-bounded) is violated; under the precondition it returns normally and
inserts the spot into `reserved_spots`. -/
theorem C3_reserve_spot_fatal (st : ParkingSimState) (s : ParkingSpot) :
    ((∃ e, st.reserve_spot s = .error e) ↔
        ¬(st.is_free s = true ∧ st.spotBounded s = true)) ∧
    (st.is_free s = true → st.spotBounded s = true →
      st.reserve_spot s = .ok (afterReserve st s) ∧
        s ∈ (afterReserve st s).reserved_spots) := by
  refine ⟨reserve_spot_error_iff, fun hf hb => ⟨reserve_spot_ok_iff.mpr ⟨hf, hb, rfl⟩, ?_⟩⟩
  exact mem_insertSet.mpr (Or.inl rfl)

/-- C3 witness: the success half evaluated on a concrete free, bounded spot. -/
theorem C3_reserve_spot_fatal_witness :
    lotStore.reserve_spot (ParkingSpot.lot 1 0)
        = .ok (afterReserve lotStore (ParkingSpot.lot 1 0)) ∧
      ParkingSpot.lot 1 0 ∈ (afterReserve lotStore (ParkingSpot.lot 1 0)).reserved_spots :=
  (C3_reserve_spot_fatal lotStore (ParkingSpot.lot 1 0)).2 (by decide) (by decide)

/-- C10: `add_parked_car` pushes the CarReachedParkingSpot event before any of
its precondition asserts, so every fatal-failure state already contains the
appended event. -/
theorem C10_event_precedes_asserts (st : ParkingSimState) (p : ParkedCar)
    (e : ParkingSimState) (h : st.add_parked_car p = .error e) :
    e.events = st.events ++ [Event.carReachedParkingSpot p.vehicle.id p.spot] := by
  unfold ParkingSimState.add_parked_car at h
  simp only [removeSet] at h
  by_cases hr : p.spot ∈ st.reserved_spots
  · rw [decide_eq_true hr] at h
    simp only [Bool.not_true, Bool.false_eq_true, if_false] at h
    by_cases ho : containsKey p.spot st.occupants
    · rw [ho] at h
      simp only [if_true] at h
      injection h with h2
      rw [← h2]
    · have ho' : containsKey p.spot st.occupants = false := by
        revert ho; cases containsKey p.spot st.occupants <;> simp
      rw [ho'] at h
      simp only [Bool.false_eq_true, if_false] at h
      by_cases hc : containsKey p.vehicle.id st.parked_cars
      · rw [hc] at h
        simp only [if_true] at h
        injection h with h2
        rw [← h2]
      · have hc' : containsKey p.vehicle.id st.parked_cars = false := by
          revert hc; cases containsKey p.vehicle.id st.parked_cars <;> simp
        rw [hc'] at h
        simp only [Bool.false_eq_true, if_false] at h
        exact Except.noConfusion h
  · have hr' : decide (p.spot ∈ st.reserved_spots) = false := by simp [hr]
    rw [hr'] at h
    simp only [Bool.not_false, if_true] at h
    injection h with h2
    rw [← h2]

/-- C10 witness: a failing `add_parked_car` (nothing reserved) whose error
state already carries the event. -/
theorem C10_event_precedes_asserts_witness :
    ({ emptyStore with
        events := [Event.carReachedParkingSpot pW.vehicle.id pW.spot] } : ParkingSimState).events
      = emptyStore.events ++ [Event.carReachedParkingSpot pW.vehicle.id pW.spot] :=
  C10_event_precedes_asserts emptyStore pW
    { emptyStore with events := [Event.carReachedParkingSpot pW.vehicle.id pW.spot] } rfl

/-! ### C4: the mutual-inverse invariant -/

/-- A store with two parked cars, satisfying the mutual-inverse invariant. -/
def stC4 : ParkingSimState :=
  { emptyStore with
      parked_cars := [(1, ⟨⟨1, 4, none⟩, ParkingSpot.lot 1 0⟩),
                      (2, ⟨⟨2, 4, none⟩, ParkingSpot.lot 1 1⟩)],
      occupants := [(ParkingSpot.lot 1 0, 1), (ParkingSpot.lot 1 1, 2)] }

/-- A `ParkedCar` argument whose vehicle is parked and whose spot is occupied,
but by a different car: the spec precondition of `remove_parked_car` holds,
yet the pairing is mismatched. -/
def pBad : ParkedCar := ⟨⟨1, 4, none⟩, ParkingSpot.lot 1 1⟩

/-- C4 counterexample: from an invariant-satisfying state, `remove_parked_car`
with a mismatched vehicle/spot argument satisfies the spec's precondition
(vehicle present in parked_cars, spot present in occupants), returns normally,
and breaks the mutual-inverse invariant. -/
theorem C4_counterexample :
    inversesB stC4 = true ∧
    containsKey pBad.vehicle.id stC4.parked_cars = true ∧
    containsKey pBad.spot stC4.occupants = true ∧
    stC4.remove_parked_car pBad = .ok (afterRemove stC4 pBad) ∧
    inversesB (afterRemove stC4 pBad) = false :=
  ⟨by decide, by decide, by decide, rfl, by decide⟩

/-- C4 (amended): the mutual-inverse invariant is preserved by every public
mutating operation that returns normally, where `remove_parked_car`'s
precondition is strengthened to require that the argument matches the store's
recorded pairing (`occupants` maps `p.spot` to `p.vehicle.id`). -/
theorem C4_amended_invariant (st : ParkingSimState) (hinv : inversesB st = true) :
    (∀ s st', st.reserve_spot s = .ok st' → inversesB st' = true) ∧
    (∀ p st', st.add_parked_car p = .ok st' → inversesB st' = true) ∧
    (∀ (p : ParkedCar) st', lookupA p.spot st.occupants = some p.vehicle.id →
        st.remove_parked_car p = .ok st' → inversesB st' = true) ∧
    inversesB st.collect_events.2 = true := by
  obtain ⟨d1, d2⟩ := inversesB_iff.mp hinv
  refine ⟨?_, ?_, ?_, ?_⟩
  · rintro s st' h
    obtain ⟨-, -, rfl⟩ := reserve_spot_ok_iff.mp h
    exact hinv
  · rintro p st' h
    obtain ⟨hres, hocc, hcar, rfl⟩ := add_parked_car_ok_iff.mp h
    have hoccn : lookupA p.spot st.occupants = none := containsKey_eq_false_iff.mp hocc
    have hcarn : lookupA p.vehicle.id st.parked_cars = none := containsKey_eq_false_iff.mp hcar
    refine inversesB_iff.mpr ⟨?_, ?_⟩
    · intro v q hm
      dsimp only [afterAdd] at hm ⊢
      rcases List.mem_cons.mp (by
          have hm2 : (v, q) ∈ insertA p.vehicle.id p st.parked_cars := hm
          unfold insertA at hm2
          exact hm2) with heq | hm'
      · have hv : v = p.vehicle.id := congrArg Prod.fst heq
        have hq : q = p := congrArg Prod.snd heq
        rw [hv, hq]
        exact lookupA_insertA_self p.spot p.vehicle.id st.occupants
      · obtain ⟨hm2, hne⟩ := mem_eraseA.mp hm'
        have hold := d1 v q hm2
        have hsne : q.spot ≠ p.spot := by
          intro hsp
          rw [hsp, hoccn] at hold
          exact Option.noConfusion hold
        rw [lookupA_insertA_ne p.vehicle.id st.occupants hsne]
        exact hold
    · intro s v hm
      dsimp only [afterAdd] at hm ⊢
      rcases List.mem_cons.mp (by
          have hm2 : (s, v) ∈ insertA p.spot p.vehicle.id st.occupants := hm
          unfold insertA at hm2
          exact hm2) with heq | hm'
      · have hs : s = p.spot := congrArg Prod.fst heq
        have hv : v = p.vehicle.id := congrArg Prod.snd heq
        rw [hs, hv]
        exact ⟨p, lookupA_insertA_self p.vehicle.id p st.parked_cars, rfl⟩
      · obtain ⟨hm2, hne⟩ := mem_eraseA.mp hm'
        obtain ⟨q, hq, hqs⟩ := d2 s v hm2
        have hvne : v ≠ p.vehicle.id := by
          intro hveq
          rw [hveq, hcarn] at hq
          exact Option.noConfusion hq
        exact ⟨q, by rw [lookupA_insertA_ne p st.parked_cars hvne]; exact hq, hqs⟩
  · rintro p st' hmatch h
    obtain ⟨hv, ho, rfl⟩ := remove_parked_car_ok_iff.mp h
    refine inversesB_iff.mpr ⟨?_, ?_⟩
    · intro v q hm
      dsimp only [afterRemove] at hm ⊢
      obtain ⟨hm2, hne⟩ := mem_eraseA.mp hm
      have hold := d1 v q hm2
      have hsne : q.spot ≠ p.spot := by
        intro hsp
        rw [hsp, hmatch] at hold
        exact hne (Option.some.inj hold).symm
      rw [lookupA_eraseA_ne st.occupants hsne]
      exact hold
    · intro s v hm
      dsimp only [afterRemove] at hm ⊢
      obtain ⟨hm2, hne⟩ := mem_eraseA.mp hm
      obtain ⟨q, hq, hqs⟩ := d2 s v hm2
      have hvne : v ≠ p.vehicle.id := by
        intro hveq
        obtain ⟨q2, hq2, hqs2⟩ := d2 p.spot p.vehicle.id (lookupA_mem hmatch)
        rw [hveq] at hq
        rw [hq] at hq2
        have hqq : q = q2 := Option.some.inj hq2
        refine hne ?_
        rw [← hqs, hqq]
        exact hqs2
      exact ⟨q, by rw [lookupA_eraseA_ne st.parked_cars hvne]; exact hq, hqs⟩
  · exact hinv

/-- C4 witness: the amended theorem applied at a concrete invariant state. -/
theorem C4_amended_invariant_witness :
    inversesB stC4.collect_events.2 = true :=
  (C4_amended_invariant stC4 (by decide)).2.2.2

/-! ### The external map collaborator

`map_model::Map` is outside this repository's sources; it is embedded as a
record of exactly the queries the parking code issues: enumerations of lanes /
buildings / lots with the attributes the parking code reads, the car-legal
turn set, and the opaque geometric queries (`equiv_pos`,
`parking_to_driving`, `find_closest_lane`). -/

inductive LaneType where
  | parking
  | driving
  | sidewalk
  | other
deriving DecidableEq, Repr

/-- The fields of `map_model::Lane` read by the parking code. -/
structure Lane where
  id : LaneID
  lane_type : LaneType
  parking_blackhole : Option LaneID
  number_parking_spots : Nat
  length : Dst
deriving DecidableEq, Repr

/-- `map_model::OffstreetParking`. -/
structure OffstreetParking where
  public_garage_name : Option Nat
  driving_pos : Position
  num_spots : Nat
deriving DecidableEq, Repr

/-- The fields of `map_model::Building` read by the parking code. -/
structure Building where
  id : BuildingID
  parking : Option OffstreetParking
deriving DecidableEq, Repr

/-- The fields of `map_model::ParkingLot` read by the parking code
(`numSpots` is the length of `pl.spots`). -/
structure ParkingLot where
  id : ParkingLotID
  driving_pos : Position
  numSpots : Nat
deriving DecidableEq, Repr

/-- `map_model::TurnID`. -/
structure TurnID where
  parent : Nat
  src : LaneID
  dst : LaneID
deriving DecidableEq, Repr

/-- A turn with its geometric length (`turn.geom.length()`). -/
structure Turn where
  id : TurnID
  geomLength : Dst
deriving DecidableEq, Repr

/-- `sim::PathStep` (the two variants produced by the parking search). -/
inductive PathStep where
  | lane (l : LaneID)
  | turn (t : TurnID)
deriving DecidableEq, Repr

/-- The opaque map collaborator. `turns` holds all car-legal turns
(`PathConstraints::Car`); `equivPos p l len` embeds
`p.equiv_pos(l, len, map)`. -/
structure MapModel where
  lanes : List Lane
  buildings : List Building
  lots : List ParkingLot
  turns : List Turn
  equivPos : Position → LaneID → Dst → Position
  parkingToDriving : LaneID → Option LaneID
  findClosestSidewalk : LaneID → Option LaneID

/-- `map.get_l` (panics on an unknown id, hence `Option`). -/
def getL? (m : MapModel) (l : LaneID) : Option Lane :=
  m.lanes.find? (fun ln => decide (ln.id = l))

/-- `map.get_b`. -/
def getB? (m : MapModel) (b : BuildingID) : Option Building :=
  m.buildings.find? (fun bd => decide (bd.id = b))

/-- `map.get_pl`. -/
def getPl? (m : MapModel) (pl : ParkingLotID) : Option ParkingLot :=
  m.lots.find? (fun p => decide (p.id = pl))

/-- `map.get_turns_for(l, PathConstraints::Car)`. -/
def getTurnsCar (m : MapModel) (l : LaneID) : List Turn :=
  m.turns.filter (fun t => decide (t.id.src = l))

/-! ### Construction (`ParkingLane::new`, `ParkingSimState::new`)

The result type `Option (Option ParkingLane)` separates the `panic!` path
(outer `none`) from the skip-this-lane path (inner `none`). -/

/-- `ParkingLane::new`. -/
def ParkingLane.new (lane : Lane) (m : MapModel) : Option (Option ParkingLane) :=
  if lane.lane_type ≠ LaneType.parking then some none
  else
    match m.parkingToDriving lane.id with
    | none => none
    | some driving_lane =>
      match getL? m driving_lane with
      | none => none
      | some dl =>
        if dl.parking_blackhole.isSome then some none
        else
          match m.findClosestSidewalk lane.id with
          | none => some none
          | some sidewalk =>
            some (some
              { parking_lane := lane.id,
                driving_lane := driving_lane,
                sidewalk := sidewalk,
                spot_dist_along := (List.range lane.number_parking_spots).map
                  (fun idx => PARKING_SPOT_LENGTH * (2 + (idx : ℚ))) })

/-- The lane loop of `ParkingSimState::new`. -/
def lanesLoop (m : MapModel) : ParkingSimState → List Lane → Option ParkingSimState
  | st, [] => some st
  | st, l :: ls =>
    match ParkingLane.new l m with
    | none => none
    | some none => lanesLoop m st ls
    | some (some lane) =>
      lanesLoop m
        { st with
            driving_to_parking_lanes :=
              multiInsert lane.driving_lane l.id st.driving_to_parking_lanes,
            onstreet_lanes := insertA lane.parking_lane lane st.onstreet_lanes }
        ls

/-- The building loop of `ParkingSimState::new`. -/
def buildingsLoop (m : MapModel) : ParkingSimState → List Building → Option ParkingSimState
  | st, [] => some st
  | st, b :: bs =>
    match b.parking with
    | none => buildingsLoop m st bs
    | some p =>
      match getL? m p.driving_pos.lane with
      | none => none
      | some dl =>
        if dl.parking_blackhole.isNone then
          buildingsLoop m
            { st with
                num_spots_per_offstreet :=
                  insertA b.id p.num_spots st.num_spots_per_offstreet,
                driving_to_offstreet :=
                  multiInsert p.driving_pos.lane b.id st.driving_to_offstreet }
            bs
        else buildingsLoop m st bs

/-- The parking-lot loop of `ParkingSimState::new` (lots without spots are
skipped). -/
def lotsLoop (m : MapModel) : ParkingSimState → List ParkingLot → Option ParkingSimState
  | st, [] => some st
  | st, pl :: pls =>
    if pl.numSpots = 0 then lotsLoop m st pls
    else
      match getL? m pl.driving_pos.lane with
      | none => none
      | some dl =>
        if dl.parking_blackhole.isNone then
          lotsLoop m
            { st with
                num_spots_per_lot := insertA pl.id pl.numSpots st.num_spots_per_lot,
                driving_to_lots :=
                  multiInsert pl.driving_pos.lane pl.id st.driving_to_lots }
            pls
        else lotsLoop m st pls

/-- `ParkingSimState::new`. -/
def ParkingSimState.new (m : MapModel) : Option ParkingSimState :=
  match lanesLoop m emptyStore m.lanes with
  | none => none
  | some st1 =>
    match buildingsLoop m st1 m.buildings with
    | none => none
    | some st2 => lotsLoop m st2 m.lots

/-! ### C9: which zero-capacity entities are omitted at construction -/

theorem lanesLoop_lot_fields {m : MapModel} :
    ∀ {ls : List Lane} {st st' : ParkingSimState}, lanesLoop m st ls = some st' →
      st'.num_spots_per_lot = st.num_spots_per_lot ∧
      st'.driving_to_lots = st.driving_to_lots := by
  intro ls
  induction ls with
  | nil =>
    intro st st' h
    unfold lanesLoop at h
    cases h
    exact ⟨rfl, rfl⟩
  | cons l rest ih =>
    intro st st' h
    unfold lanesLoop at h
    split at h
    · exact Option.noConfusion h
    · exact ih h
    · have hih := ih h
      exact hih

theorem buildingsLoop_lot_fields {m : MapModel} :
    ∀ {bs : List Building} {st st' : ParkingSimState}, buildingsLoop m st bs = some st' →
      st'.num_spots_per_lot = st.num_spots_per_lot ∧
      st'.driving_to_lots = st.driving_to_lots := by
  intro bs
  induction bs with
  | nil =>
    intro st st' h
    unfold buildingsLoop at h
    cases h
    exact ⟨rfl, rfl⟩
  | cons b rest ih =>
    intro st st' h
    unfold buildingsLoop at h
    split at h
    · exact ih h
    · split at h
      · exact Option.noConfusion h
      · split at h
        · have hih := ih h
          exact hih
        · exact ih h

/-- The lot invariant carried through `lotsLoop`: every recorded lot capacity
is positive and every lot indexed from a driving lane has a recorded positive
capacity. -/
def LotInv (st : ParkingSimState) : Prop :=
  (∀ pl n, lookupA pl st.num_spots_per_lot = some n → 0 < n) ∧
  (∀ dl pl, (dl, pl) ∈ st.driving_to_lots →
    ∃ n, lookupA pl st.num_spots_per_lot = some n ∧ 0 < n)

theorem LotInv_step {st : ParkingSimState} (pl : ParkingLot)
    (hz : ¬ pl.numSpots = 0) (hi : LotInv st) :
    LotInv { st with
      num_spots_per_lot := insertA pl.id pl.numSpots st.num_spots_per_lot,
      driving_to_lots := multiInsert pl.driving_pos.lane pl.id st.driving_to_lots } := by
  constructor
  · intro pl' n hlk
    by_cases hpe : pl' = pl.id
    · rw [show lookupA pl' (insertA pl.id pl.numSpots st.num_spots_per_lot)
            = lookupA pl' (insertA pl.id pl.numSpots st.num_spots_per_lot) from rfl] at hlk
      rw [hpe, lookupA_insertA_self] at hlk
      cases hlk
      exact Nat.pos_of_ne_zero hz
    · rw [show ({ st with
            num_spots_per_lot := insertA pl.id pl.numSpots st.num_spots_per_lot,
            driving_to_lots := multiInsert pl.driving_pos.lane pl.id st.driving_to_lots }
              : ParkingSimState).num_spots_per_lot
            = insertA pl.id pl.numSpots st.num_spots_per_lot from rfl,
          lookupA_insertA_ne pl.numSpots st.num_spots_per_lot hpe] at hlk
      exact hi.1 pl' n hlk
  · intro dl' pl' hm
    by_cases hpe : pl' = pl.id
    · refine ⟨pl.numSpots, ?_, Nat.pos_of_ne_zero hz⟩
      show lookupA pl' (insertA pl.id pl.numSpots st.num_spots_per_lot) = some pl.numSpots
      rw [hpe, lookupA_insertA_self]
    · have hm2 : (dl', pl') ∈ st.driving_to_lots := by
        have hm' : (dl', pl') ∈ multiInsert pl.driving_pos.lane pl.id st.driving_to_lots := hm
        unfold multiInsert at hm'
        by_cases hin : (pl.driving_pos.lane, pl.id) ∈ st.driving_to_lots
        · rw [if_pos hin] at hm'; exact hm'
        · rw [if_neg hin] at hm'
          rcases List.mem_append.mp hm' with h1 | h1
          · exact h1
          · exact absurd (congrArg Prod.snd (List.mem_singleton.mp h1)) hpe
      obtain ⟨n, hn, hpos⟩ := hi.2 dl' pl' hm2
      refine ⟨n, ?_, hpos⟩
      show lookupA pl' (insertA pl.id pl.numSpots st.num_spots_per_lot) = some n
      rw [lookupA_insertA_ne pl.numSpots st.num_spots_per_lot hpe]
      exact hn

theorem lotsLoop_inv {m : MapModel} :
    ∀ {pls : List ParkingLot} {st st' : ParkingSimState}, LotInv st →
      lotsLoop m st pls = some st' → LotInv st' := by
  intro pls
  induction pls with
  | nil =>
    intro st st' hi h
    unfold lotsLoop at h
    cases h
    exact hi
  | cons pl rest ih =>
    intro st st' hi h
    unfold lotsLoop at h
    split at h
    · exact ih hi h
    · next hz =>
        split at h
        · exact Option.noConfusion h
        · split at h
          · have hstep := LotInv_step pl hz hi
            exact ih hstep h
          · exact ih hi h

/-- C9 (amended): after a successful construction, no parking lot without
spots appears in `num_spots_per_lot` or `driving_to_lots` — every recorded
lot capacity is positive and every indexed lot has a recorded positive
capacity. -/
theorem C9_amended_lots_positive (m : MapModel) (st : ParkingSimState)
    (h : ParkingSimState.new m = some st) :
    (∀ pl n, lookupA pl st.num_spots_per_lot = some n → 0 < n) ∧
    (∀ dl pl, (dl, pl) ∈ st.driving_to_lots →
      ∃ n, lookupA pl st.num_spots_per_lot = some n ∧ 0 < n) := by
  unfold ParkingSimState.new at h
  split at h
  · exact Option.noConfusion h
  · next st1 h1 =>
      split at h
      · exact Option.noConfusion h
      · next st2 h2 =>
          have e1 := lanesLoop_lot_fields h1
          have e2 := buildingsLoop_lot_fields h2
          have hinv : LotInv st2 := by
            constructor
            · intro pl n hlk
              rw [e2.1, e1.1] at hlk
              exact Option.noConfusion hlk
            · intro dl pl hm
              rw [e2.2, e1.2] at hm
              exact absurd hm (List.not_mem_nil _)
          exact lotsLoop_inv hinv h

/-! The counterexample map: a parking lane with zero spots (valid driving
lane and sidewalk, no blackhole) and a building whose garage has zero
capacity.  Both are still indexed by `ParkingSimState::new`. -/

/-- A parking lane with zero parking spots. -/
def laneP : Lane := ⟨10, LaneType.parking, none, 0, 100⟩

/-- Its paired driving lane. -/
def laneD : Lane := ⟨11, LaneType.driving, none, 0, 100⟩

/-- Its adjacent sidewalk. -/
def laneS : Lane := ⟨12, LaneType.sidewalk, none, 0, 100⟩

/-- Map with a zero-spot parking lane, a zero-capacity garage and a zero-spot
lot. -/
def mC9 : MapModel :=
  { lanes := [laneP, laneD, laneS],
    buildings := [⟨1, some ⟨none, ⟨11, 50⟩, 0⟩⟩],
    lots := [⟨1, ⟨11, 60⟩, 0⟩],
    turns := [],
    equivPos := fun p _ _ => p,
    parkingToDriving := fun l => if l = 10 then some 11 else none,
    findClosestSidewalk := fun l => if l = 10 then some 12 else none }

/-- The store `ParkingSimState::new` builds from `mC9`. -/
def stC9 : ParkingSimState :=
  { emptyStore with
      onstreet_lanes := [(10, ⟨10, 11, 12, []⟩)],
      driving_to_parking_lanes := [(11, 10)],
      num_spots_per_offstreet := [(1, 0)],
      driving_to_offstreet := [(11, 1)] }

/-- C9 counterexample: construction succeeds on `mC9` and the resulting store
indexes the zero-spot parking lane (in `onstreet_lanes` and
`driving_to_parking_lanes`) and the zero-capacity building (in
`num_spots_per_offstreet` and `driving_to_offstreet`), contradicting the
claim that zero-capacity lanes and buildings are omitted. -/
theorem C9_counterexample :
    ParkingSimState.new mC9 = some stC9 ∧
    lookupA 10 stC9.onstreet_lanes = some ⟨10, 11, 12, []⟩ ∧
    (11, 10) ∈ stC9.driving_to_parking_lanes ∧
    lookupA 1 stC9.num_spots_per_offstreet = some 0 ∧
    (11, 1) ∈ stC9.driving_to_offstreet :=
  ⟨rfl, by decide, by decide, by decide, by decide⟩

/-- Witness map for the amended C9: one driving lane and a one-spot lot. -/
def mC9w : MapModel :=
  { lanes := [laneD],
    buildings := [],
    lots := [⟨1, ⟨11, 60⟩, 1⟩],
    turns := [],
    equivPos := fun p _ _ => p,
    parkingToDriving := fun _ => none,
    findClosestSidewalk := fun _ => none }

/-- The store `ParkingSimState::new` builds from `mC9w`. -/
def stC9w : ParkingSimState :=
  { emptyStore with num_spots_per_lot := [(1, 1)], driving_to_lots := [(11, 1)] }

/-- C9 witness: the amended theorem applied to the concrete map `mC9w`,
whose single recorded lot capacity is positive. -/
theorem C9_amended_lots_positive_witness :
    ParkingSimState.new mC9w = some stC9w ∧ 0 < 1 :=
  ⟨rfl, (C9_amended_lots_positive mC9w stC9w rfl).1 1 1 rfl⟩

/-! ### The free-spot enumerator (`get_all_free_spots`) -/

/-- `ParkingLane::dist_along_for_car` (slot-front distance adjusted to center
the vehicle; indexing out of range is a panic). -/
def ParkingLane.dist_along_for_car (self : ParkingLane) (spot_idx : Nat)
    (vehicle : Vehicle) : Option Dst :=
  (self.spot_dist_along.get? spot_idx).map
    (fun d => d - (PARKING_SPOT_LENGTH - vehicle.length) / 2)

/-- `ParkingLane::spots`. -/
def ParkingLane.spots (self : ParkingLane) : List ParkingSpot :=
  (List.range self.spot_dist_along.length).map
    (fun idx => ParkingSpot.onstreet self.parking_lane idx)

/-- The on-street inner loop of `get_all_free_spots`: free slots whose
per-vehicle front offset exceeds the translated position. -/
def onstreetFrees (st : ParkingSimState) (lane : ParkingLane) (vehicle : Vehicle)
    (parking_dist : Dst) : List ParkingSpot :=
  (List.range lane.spot_dist_along.length).filterMap (fun idx =>
    match lane.dist_along_for_car idx vehicle with
    | none => none
    | some d =>
      if st.is_free (ParkingSpot.onstreet lane.parking_lane idx) ∧ parking_dist < d
      then some (ParkingSpot.onstreet lane.parking_lane idx) else none)

/-- The on-street outer loop of `get_all_free_spots` over
`driving_to_parking_lanes` (a missing `onstreet_lanes` entry is an indexing
panic). -/
def onstreetCands (st : ParkingSimState) (dp : Position) (vehicle : Vehicle)
    (m : MapModel) : List LaneID → Option (List ParkingSpot)
  | [] => some []
  | l :: ls =>
    match lookupA l st.onstreet_lanes with
    | none => none
    | some lane =>
      match onstreetCands st dp vehicle m ls with
      | none => none
      | some rest =>
        some (onstreetFrees st lane vehicle ((m.equivPos dp l dp.dist).dist) ++ rest)

/-- The off-street inner loop: free spots of one building. -/
def offstreetFrees (st : ParkingSimState) (b : BuildingID) (n : Nat) : List ParkingSpot :=
  (List.range n).filterMap (fun idx =>
    if st.is_free (ParkingSpot.offstreet b idx)
    then some (ParkingSpot.offstreet b idx) else none)

/-- The off-street outer loop of `get_all_free_spots` over
`driving_to_offstreet`, with the public/private filter. -/
def offstreetCands (st : ParkingSimState) (dp : Position) (target : BuildingID)
    (m : MapModel) : List BuildingID → Option (List ParkingSpot)
  | [] => some []
  | b :: bs =>
    match getB? m b with
    | none => none
    | some bldg =>
      match bldg.parking with
      | none => none
      | some parking =>
        if parking.public_garage_name = none ∧ target ≠ b then
          offstreetCands st dp target m bs
        else
          match offstreetCands st dp target m bs with
          | none => none
          | some rest =>
            if dp.dist < parking.driving_pos.dist then
              match lookupA b st.num_spots_per_offstreet with
              | none => none
              | some n => some (offstreetFrees st b n ++ rest)
            else some rest

/-- The lot inner loop: free spots of one lot. -/
def lotFrees (st : ParkingSimState) (pl : ParkingLotID) (n : Nat) : List ParkingSpot :=
  (List.range n).filterMap (fun idx =>
    if st.is_free (ParkingSpot.lot pl idx)
    then some (ParkingSpot.lot pl idx) else none)

/-- The lot outer loop of `get_all_free_spots` over `driving_to_lots` (no
public/private filter). -/
def lotCands (st : ParkingSimState) (dp : Position) (m : MapModel) :
    List ParkingLotID → Option (List ParkingSpot)
  | [] => some []
  | pl :: pls =>
    match getPl? m pl with
    | none => none
    | some lot =>
      match lotCands st dp m pls with
      | none => none
      | some rest =>
        if dp.dist < lot.driving_pos.dist then
          match lookupA pl st.num_spots_per_lot with
          | none => none
          | some n => some (lotFrees st pl n ++ rest)
        else some rest

/-- `ParkingSimState::spot_to_driving_pos`. -/
def ParkingSimState.spot_to_driving_pos (self : ParkingSimState) (spot : ParkingSpot)
    (vehicle : Vehicle) (m : MapModel) : Option Position :=
  match spot with
  | .onstreet l idx =>
    match lookupA l self.onstreet_lanes with
    | none => none
    | some lane =>
      match lane.dist_along_for_car idx vehicle with
      | none => none
      | some d => some (m.equivPos ⟨l, d⟩ lane.driving_lane vehicle.length)
  | .offstreet b _ =>
    match getB? m b with
    | none => none
    | some bldg =>
      match bldg.parking with
      | none => none
      | some parking => some parking.driving_pos
  | .lot pl _ =>
    match getPl? m pl with
    | none => none
    | some lot => some lot.driving_pos

/-- The final mapping of `get_all_free_spots`: pair every candidate with its
driving position. -/
def mapCands (st : ParkingSimState) (vehicle : Vehicle) (m : MapModel) :
    List ParkingSpot → Option (List (ParkingSpot × Position))
  | [] => some []
  | s :: ss =>
    match st.spot_to_driving_pos s vehicle m with
    | none => none
    | some pos =>
      match mapCands st vehicle m ss with
      | none => none
      | some rest => some ((s, pos) :: rest)

/-- `ParkingSimState::get_all_free_spots`. -/
def ParkingSimState.get_all_free_spots (self : ParkingSimState) (driving_pos : Position)
    (vehicle : Vehicle) (target : BuildingID) (m : MapModel) :
    Option (List (ParkingSpot × Position)) :=
  match onstreetCands self driving_pos vehicle m
      (multiGet self.driving_to_parking_lanes driving_pos.lane) with
  | none => none
  | some onC =>
    match offstreetCands self driving_pos target m
        (multiGet self.driving_to_offstreet driving_pos.lane) with
    | none => none
    | some offC =>
      match lotCands self driving_pos m
          (multiGet self.driving_to_lots driving_pos.lane) with
      | none => none
      | some lotC => mapCands self vehicle m (onC ++ offC ++ lotC)

/-- Store/map consistency: every indexed parking lane, building and lot can
actually be resolved (all of it guaranteed by construction; needed because
the store fields are embedded as independent lists). -/
def wfStoreB (st : ParkingSimState) (m : MapModel) : Bool :=
  st.driving_to_parking_lanes.all (fun kv =>
    match lookupA kv.2 st.onstreet_lanes with
    | some lane => decide (lane.parking_lane = kv.2) && decide (lane.driving_lane = kv.1)
    | none => false) &&
  st.driving_to_offstreet.all (fun kv =>
    (match getB? m kv.2 with
     | some bldg => bldg.parking.isSome
     | none => false) && containsKey kv.2 st.num_spots_per_offstreet) &&
  st.driving_to_lots.all (fun kv =>
    (getPl? m kv.2).isSome && containsKey kv.2 st.num_spots_per_lot)

/-! ### Membership characterizations of the enumerator -/

theorem multiGet_mem {α β : Type} [DecidableEq α] {m : List (α × β)} {k : α} {v : β} :
    v ∈ multiGet m k ↔ (k, v) ∈ m := by
  unfold multiGet
  rw [List.mem_filterMap]
  constructor
  · rintro ⟨kv, hm, he⟩
    by_cases hk : kv.1 = k
    · rw [if_pos hk] at he
      have hv : kv.2 = v := Option.some.inj he
      have hkv : kv = (k, v) := by
        cases kv
        simp at hk hv
        simp [hk, hv]
      exact hkv ▸ hm
    · rw [if_neg hk] at he
      exact Option.noConfusion he
  · intro hm
    exact ⟨(k, v), hm, by simp⟩

theorem mapCands_mem {st : ParkingSimState} {veh : Vehicle} {m : MapModel} :
    ∀ {cands : List ParkingSpot} {out : List (ParkingSpot × Position)},
      mapCands st veh m cands = some out →
      ∀ {s p}, ((s, p) ∈ out ↔
        s ∈ cands ∧ st.spot_to_driving_pos s veh m = some p) := by
  intro cands
  induction cands with
  | nil =>
    intro out h s p
    unfold mapCands at h
    cases h
    simp
  | cons c cs ih =>
    intro out h s p
    unfold mapCands at h
    split at h
    · exact Option.noConfusion h
    · next pos hpos =>
        split at h
        · exact Option.noConfusion h
        · next rest hrest =>
            cases h
            constructor
            · intro hm
              rcases List.mem_cons.mp hm with he | hm2
              · have hs : s = c := congrArg Prod.fst he
                have hp : p = pos := congrArg Prod.snd he
                rw [hs, hp]
                exact ⟨List.mem_cons_self _ _, hpos⟩
              · obtain ⟨h1, h2⟩ := (ih hrest).mp hm2
                exact ⟨List.mem_cons_of_mem _ h1, h2⟩
            · rintro ⟨h1, h2⟩
              rcases List.mem_cons.mp h1 with he | h1'
              · rw [he] at h2 ⊢
                rw [hpos] at h2
                have hpe : pos = p := Option.some.inj h2
                rw [← hpe]
                exact List.mem_cons_self _ _
              · exact List.mem_cons_of_mem _ ((ih hrest).mpr ⟨h1', h2⟩)

theorem mem_onstreetFrees {st : ParkingSimState} {lane : ParkingLane} {veh : Vehicle}
    {pd : Dst} {s : ParkingSpot} :
    s ∈ onstreetFrees st lane veh pd ↔
      ∃ idx d, lane.spot_dist_along.get? idx = some d ∧
        s = ParkingSpot.onstreet lane.parking_lane idx ∧
        st.is_free (ParkingSpot.onstreet lane.parking_lane idx) = true ∧
        pd < d - (PARKING_SPOT_LENGTH - veh.length) / 2 := by
  unfold onstreetFrees
  rw [List.mem_filterMap]
  constructor
  · rintro ⟨idx, hr, he⟩
    split at he
    · exact Option.noConfusion he
    · next d' hd =>
        split at he
        · next hc =>
            unfold ParkingLane.dist_along_for_car at hd
            cases hg : lane.spot_dist_along.get? idx with
            | none => rw [hg] at hd; exact Option.noConfusion hd
            | some d0 =>
              rw [hg] at hd
              simp only [Option.map_some'] at hd
              have hd2 : d0 - (PARKING_SPOT_LENGTH - veh.length) / 2 = d' :=
                Option.some.inj hd
              refine ⟨idx, d0, hg, (Option.some.inj he).symm, hc.1, ?_⟩
              rw [hd2]
              exact hc.2
        · exact Option.noConfusion he
  · rintro ⟨idx, d, hg, hs, hf, hlt⟩
    refine ⟨idx, ?_, ?_⟩
    · rw [List.mem_range]
      exact (List.get?_eq_some.mp hg).choose
    · have hd : lane.dist_along_for_car idx veh
          = some (d - (PARKING_SPOT_LENGTH - veh.length) / 2) := by
        unfold ParkingLane.dist_along_for_car
        rw [hg]
        rfl
      simp only [hd]
      rw [if_pos ⟨hf, hlt⟩, hs]

theorem mem_offstreetFrees {st : ParkingSimState} {b : BuildingID} {n : Nat}
    {s : ParkingSpot} :
    s ∈ offstreetFrees st b n ↔
      ∃ idx, idx < n ∧ s = ParkingSpot.offstreet b idx ∧
        st.is_free (ParkingSpot.offstreet b idx) = true := by
  unfold offstreetFrees
  rw [List.mem_filterMap]
  constructor
  · rintro ⟨idx, hr, he⟩
    by_cases hc : st.is_free (ParkingSpot.offstreet b idx) = true
    · rw [if_pos hc] at he
      exact ⟨idx, List.mem_range.mp hr, (Option.some.inj he).symm, hc⟩
    · rw [if_neg hc] at he
      exact Option.noConfusion he
  · rintro ⟨idx, hr, hs, hf⟩
    exact ⟨idx, List.mem_range.mpr hr, by rw [if_pos hf, hs]⟩

theorem mem_lotFrees {st : ParkingSimState} {pl : ParkingLotID} {n : Nat}
    {s : ParkingSpot} :
    s ∈ lotFrees st pl n ↔
      ∃ idx, idx < n ∧ s = ParkingSpot.lot pl idx ∧
        st.is_free (ParkingSpot.lot pl idx) = true := by
  unfold lotFrees
  rw [List.mem_filterMap]
  constructor
  · rintro ⟨idx, hr, he⟩
    by_cases hc : st.is_free (ParkingSpot.lot pl idx) = true
    · rw [if_pos hc] at he
      exact ⟨idx, List.mem_range.mp hr, (Option.some.inj he).symm, hc⟩
    · rw [if_neg hc] at he
      exact Option.noConfusion he
  · rintro ⟨idx, hr, hs, hf⟩
    exact ⟨idx, List.mem_range.mpr hr, by rw [if_pos hf, hs]⟩

theorem onstreetCands_mem {st : ParkingSimState} {dp : Position} {veh : Vehicle}
    {m : MapModel} :
    ∀ {ls : List LaneID} {onC : List ParkingSpot},
      onstreetCands st dp veh m ls = some onC →
      ∀ {s}, s ∈ onC → ∃ l lane, l ∈ ls ∧ lookupA l st.onstreet_lanes = some lane ∧
        s ∈ onstreetFrees st lane veh ((m.equivPos dp l dp.dist).dist) := by
  intro ls
  induction ls with
  | nil =>
    intro onC h s hm
    unfold onstreetCands at h
    cases h
    exact absurd hm (List.not_mem_nil _)
  | cons l ls ih =>
    intro onC h s hm
    unfold onstreetCands at h
    split at h
    · exact Option.noConfusion h
    · next lane hlane =>
        split at h
        · exact Option.noConfusion h
        · next rest hrest =>
            cases h
            rcases List.mem_append.mp hm with h1 | h1
            · exact ⟨l, lane, List.mem_cons_self _ _, hlane, h1⟩
            · obtain ⟨l', lane', hml, hlk, hmf⟩ := ih hrest h1
              exact ⟨l', lane', List.mem_cons_of_mem _ hml, hlk, hmf⟩

theorem offstreetCands_mem {st : ParkingSimState} {dp : Position} {target : BuildingID}
    {m : MapModel} :
    ∀ {bs : List BuildingID} {offC : List ParkingSpot},
      offstreetCands st dp target m bs = some offC →
      ∀ {s}, s ∈ offC → ∃ b bldg pk n, b ∈ bs ∧ getB? m b = some bldg ∧
        bldg.parking = some pk ∧
        ¬(pk.public_garage_name = none ∧ target ≠ b) ∧
        dp.dist < pk.driving_pos.dist ∧
        lookupA b st.num_spots_per_offstreet = some n ∧
        s ∈ offstreetFrees st b n := by
  intro bs
  induction bs with
  | nil =>
    intro offC h s hm
    unfold offstreetCands at h
    cases h
    exact absurd hm (List.not_mem_nil _)
  | cons b bs ih =>
    intro offC h s hm
    unfold offstreetCands at h
    split at h
    · exact Option.noConfusion h
    · next bldg hbldg =>
        split at h
        · exact Option.noConfusion h
        · next pk hpk =>
            split at h
            · obtain ⟨b', bldg', pk', n', hmb, h1, h2, h3, h4, h5, h6⟩ := ih h hm
              exact ⟨b', bldg', pk', n', List.mem_cons_of_mem _ hmb, h1, h2, h3, h4, h5, h6⟩
            · next hfilter =>
                split at h
                · exact Option.noConfusion h
                · next rest hrest =>
                    split at h
                    · next hdist =>
                        split at h
                        · exact Option.noConfusion h
                        · next n hn =>
                            cases h
                            rcases List.mem_append.mp hm with h1 | h1
                            · exact ⟨b, bldg, pk, n, List.mem_cons_self _ _, hbldg, hpk,
                                hfilter, hdist, hn, h1⟩
                            · obtain ⟨b', bldg', pk', n', hmb, g1, g2, g3, g4, g5, g6⟩ :=
                                ih hrest h1
                              exact ⟨b', bldg', pk', n', List.mem_cons_of_mem _ hmb,
                                g1, g2, g3, g4, g5, g6⟩
                    · cases h
                      obtain ⟨b', bldg', pk', n', hmb, g1, g2, g3, g4, g5, g6⟩ := ih hrest hm
                      exact ⟨b', bldg', pk', n', List.mem_cons_of_mem _ hmb,
                        g1, g2, g3, g4, g5, g6⟩

theorem lotCands_mem {st : ParkingSimState} {dp : Position} {m : MapModel} :
    ∀ {pls : List ParkingLotID} {lotC : List ParkingSpot},
      lotCands st dp m pls = some lotC →
      ∀ {s}, s ∈ lotC → ∃ pl lot n, pl ∈ pls ∧ getPl? m pl = some lot ∧
        dp.dist < lot.driving_pos.dist ∧
        lookupA pl st.num_spots_per_lot = some n ∧
        s ∈ lotFrees st pl n := by
  intro pls
  induction pls with
  | nil =>
    intro lotC h s hm
    unfold lotCands at h
    cases h
    exact absurd hm (List.not_mem_nil _)
  | cons pl pls ih =>
    intro lotC h s hm
    unfold lotCands at h
    split at h
    · exact Option.noConfusion h
    · next lot hlot =>
        split at h
        · exact Option.noConfusion h
        · next rest hrest =>
            split at h
            · next hdist =>
                split at h
                · exact Option.noConfusion h
                · next n hn =>
                    cases h
                    rcases List.mem_append.mp hm with h1 | h1
                    · exact ⟨pl, lot, n, List.mem_cons_self _ _, hlot, hdist, hn, h1⟩
                    · obtain ⟨pl', lot', n', hmp, g1, g2, g3, g4⟩ := ih hrest h1
                      exact ⟨pl', lot', n', List.mem_cons_of_mem _ hmp, g1, g2, g3, g4⟩
            · cases h
              obtain ⟨pl', lot', n', hmp, g1, g2, g3, g4⟩ := ih hrest hm
              exact ⟨pl', lot', n', List.mem_cons_of_mem _ hmp, g1, g2, g3, g4⟩

theorem get_all_free_spots_inv {st : ParkingSimState} {dp : Position} {veh : Vehicle}
    {target : BuildingID} {m : MapModel} {out : List (ParkingSpot × Position)}
    (h : st.get_all_free_spots dp veh target m = some out) :
    ∃ onC offC lotC,
      onstreetCands st dp veh m (multiGet st.driving_to_parking_lanes dp.lane) = some onC ∧
      offstreetCands st dp target m (multiGet st.driving_to_offstreet dp.lane) = some offC ∧
      lotCands st dp m (multiGet st.driving_to_lots dp.lane) = some lotC ∧
      mapCands st veh m (onC ++ offC ++ lotC) = some out := by
  unfold ParkingSimState.get_all_free_spots at h
  split at h
  · exact Option.noConfusion h
  · next onC h1 =>
      split at h
      · exact Option.noConfusion h
      · next offC h2 =>
          split at h
          · exact Option.noConfusion h
          · next lotC h3 => exact ⟨onC, offC, lotC, h1, h2, h3, h⟩

theorem wfStoreB_split {st : ParkingSimState} {m : MapModel} (h : wfStoreB st m = true) :
    st.driving_to_parking_lanes.all (fun kv =>
      match lookupA kv.2 st.onstreet_lanes with
      | some lane => decide (lane.parking_lane = kv.2) && decide (lane.driving_lane = kv.1)
      | none => false) = true ∧
    st.driving_to_offstreet.all (fun kv =>
      (match getB? m kv.2 with
       | some bldg => bldg.parking.isSome
       | none => false) && containsKey kv.2 st.num_spots_per_offstreet) = true ∧
    st.driving_to_lots.all (fun kv =>
      (getPl? m kv.2).isSome && containsKey kv.2 st.num_spots_per_lot) = true := by
  unfold wfStoreB at h
  rw [Bool.and_eq_true] at h
  obtain ⟨hab, hc⟩ := h
  rw [Bool.and_eq_true] at hab
  exact ⟨hab.1, hab.2, hc⟩

theorem wfStoreB_parking {st : ParkingSimState} {m : MapModel} (h : wfStoreB st m = true)
    {dl pl : LaneID} (hm : (dl, pl) ∈ st.driving_to_parking_lanes) :
    ∃ lane, lookupA pl st.onstreet_lanes = some lane ∧
      lane.parking_lane = pl ∧ lane.driving_lane = dl := by
  have ha := (wfStoreB_split h).1
  rw [List.all_eq_true] at ha
  have hx := ha (dl, pl) hm
  split at hx
  · next lane hlk =>
      rw [Bool.and_eq_true] at hx
      exact ⟨lane, hlk, of_decide_eq_true hx.1, of_decide_eq_true hx.2⟩
  · exact Bool.noConfusion hx

/-- C5: every pair returned by `get_all_free_spots` is a free spot whose
access distance strictly exceeds the query position's distance.  The
hypothesis `hmono` is the order-compatibility of the opaque lane-coordinate
translation `equiv_pos` of the external map collaborator (trivially satisfied
by any distance-preserving translation). -/
theorem C5_spots_free_and_ahead (st : ParkingSimState) (dp : Position) (veh : Vehicle)
    (target : BuildingID) (m : MapModel) (out : List (ParkingSpot × Position))
    (hwf : wfStoreB st m = true)
    (hmono : ∀ pl fd, (m.equivPos dp pl dp.dist).dist < fd →
        dp.dist < (m.equivPos ⟨pl, fd⟩ dp.lane veh.length).dist)
    (hout : st.get_all_free_spots dp veh target m = some out) :
    ∀ s p, (s, p) ∈ out → st.is_free s = true ∧ dp.dist < p.dist := by
  obtain ⟨onC, offC, lotC, h1, h2, h3, h4⟩ := get_all_free_spots_inv hout
  intro s p hm
  obtain ⟨hcand, hpos⟩ := (mapCands_mem h4).mp hm
  rcases List.mem_append.mp hcand with h5 | h5
  · rcases List.mem_append.mp h5 with h6 | h6
    · -- on-street
      obtain ⟨l, lane, hml, hlk, hmf⟩ := onstreetCands_mem h1 h6
      obtain ⟨idx, d, hg, hs, hf, hlt⟩ := mem_onstreetFrees.mp hmf
      obtain ⟨lane0, hlk0, hpl0, hdl0⟩ := wfStoreB_parking hwf (multiGet_mem.mp hml)
      rw [hlk0] at hlk
      have hle : lane0 = lane := Option.some.inj hlk
      rw [hle] at hpl0 hdl0
      constructor
      · rw [hs]; exact hf
      · rw [hs] at hpos
        simp only [ParkingSimState.spot_to_driving_pos] at hpos
        rw [hpl0] at hpos
        rw [show lookupA l st.onstreet_lanes = some lane from hle ▸ hlk0] at hpos
        have hd : lane.dist_along_for_car idx veh
            = some (d - (PARKING_SPOT_LENGTH - veh.length) / 2) := by
          unfold ParkingLane.dist_along_for_car
          rw [hg]
          rfl
        simp only [hd] at hpos
        have hpe : m.equivPos ⟨l, d - (PARKING_SPOT_LENGTH - veh.length) / 2⟩
            lane.driving_lane veh.length = p := Option.some.inj hpos
        rw [← hpe, hdl0]
        exact hmono l (d - (PARKING_SPOT_LENGTH - veh.length) / 2) hlt
    · -- off-street
      obtain ⟨b, bldg, pk, n, hmb, hgb, hpk, hfil, hdist, hn, hmf⟩ :=
        offstreetCands_mem h2 h6
      obtain ⟨idx, hin, hs, hf⟩ := mem_offstreetFrees.mp hmf
      constructor
      · rw [hs]; exact hf
      · rw [hs] at hpos
        simp only [ParkingSimState.spot_to_driving_pos, hgb, hpk] at hpos
        have hpe : pk.driving_pos = p := Option.some.inj hpos
        rw [← hpe]
        exact hdist
  · -- lots
    obtain ⟨pl, lot, n, hmp, hgp, hdist, hn, hmf⟩ := lotCands_mem h3 h5
    obtain ⟨idx, hin, hs, hf⟩ := mem_lotFrees.mp hmf
    constructor
    · rw [hs]; exact hf
    · rw [hs] at hpos
      simp only [ParkingSimState.spot_to_driving_pos, hgp] at hpos
      have hpe : lot.driving_pos = p := Option.some.inj hpos
      rw [← hpe]
      exact hdist

theorem lot_not_in_onC {st : ParkingSimState} {dp : Position} {veh : Vehicle}
    {m : MapModel} {ls : List LaneID} {onC : List ParkingSpot}
    (h : onstreetCands st dp veh m ls = some onC) {pl : ParkingLotID} {idx : Nat}
    (hm : ParkingSpot.lot pl idx ∈ onC) : False := by
  obtain ⟨l, lane, _, _, hmf⟩ := onstreetCands_mem h hm
  obtain ⟨idx', d, _, hs, _, _⟩ := mem_onstreetFrees.mp hmf
  exact ParkingSpot.noConfusion hs

theorem lot_not_in_offC {st : ParkingSimState} {dp : Position} {target : BuildingID}
    {m : MapModel} {bs : List BuildingID} {offC : List ParkingSpot}
    (h : offstreetCands st dp target m bs = some offC) {pl : ParkingLotID} {idx : Nat}
    (hm : ParkingSpot.lot pl idx ∈ offC) : False := by
  obtain ⟨b, bldg, pk, n, _, _, _, _, _, _, hmf⟩ := offstreetCands_mem h hm
  obtain ⟨idx', _, hs, _⟩ := mem_offstreetFrees.mp hmf
  exact ParkingSpot.noConfusion hs

/-- C6: an off-street spot of building b appears in `get_all_free_spots`
results only if b exposes public parking or equals the query target, while
parking-lot results are not subject to the public/private filter (they are
the same for every target). -/
theorem C6_privacy_filter (st : ParkingSimState) (dp : Position) (veh : Vehicle)
    (t : BuildingID) (m : MapModel) (out : List (ParkingSpot × Position))
    (hout : st.get_all_free_spots dp veh t m = some out) :
    (∀ b idx p, (ParkingSpot.offstreet b idx, p) ∈ out →
      ∃ bldg pk, getB? m b = some bldg ∧ bldg.parking = some pk ∧
        (pk.public_garage_name ≠ none ∨ b = t)) ∧
    (∀ t2 out2, st.get_all_free_spots dp veh t2 m = some out2 →
      ∀ pl idx p, ((ParkingSpot.lot pl idx, p) ∈ out ↔
        (ParkingSpot.lot pl idx, p) ∈ out2)) := by
  obtain ⟨onC, offC, lotC, h1, h2, h3, h4⟩ := get_all_free_spots_inv hout
  constructor
  · intro b idx p hm
    obtain ⟨hcand, hpos⟩ := (mapCands_mem h4).mp hm
    rcases List.mem_append.mp hcand with h5 | h5
    · rcases List.mem_append.mp h5 with h6 | h6
      · obtain ⟨l, lane, _, _, hmf⟩ := onstreetCands_mem h1 h6
        obtain ⟨idx', d, _, hs, _, _⟩ := mem_onstreetFrees.mp hmf
        exact ParkingSpot.noConfusion hs
      · obtain ⟨b', bldg, pk, n, hmb, hgb, hpk, hfil, hdist, hn, hmf⟩ :=
          offstreetCands_mem h2 h6
        obtain ⟨idx', _, hs, _⟩ := mem_offstreetFrees.mp hmf
        have hb : b' = b := by
          cases hs
          rfl
        rw [hb] at hgb hfil
        refine ⟨bldg, pk, hgb, hpk, ?_⟩
        by_cases hg : pk.public_garage_name = none
        · right
          by_contra hne
          exact hfil ⟨hg, fun he => hne he.symm⟩
        · exact Or.inl hg
    · obtain ⟨pl, lot, n, _, _, _, _, hmf⟩ := lotCands_mem h3 h5
      obtain ⟨idx', _, hs, _⟩ := mem_lotFrees.mp hmf
      exact ParkingSpot.noConfusion hs
  · intro t2 out2 hout2 pl idx p
    obtain ⟨onC2, offC2, lotC2, g1, g2, g3, g4⟩ := get_all_free_spots_inv hout2
    rw [h1] at g1
    rw [h3] at g3
    have heon : onC2 = onC := (Option.some.inj g1).symm
    have helot : lotC2 = lotC := (Option.some.inj g3).symm
    rw [heon, helot] at g4
    rw [mapCands_mem h4, mapCands_mem g4]
    constructor
    · rintro ⟨hcand, hpos⟩
      refine ⟨?_, hpos⟩
      rcases List.mem_append.mp hcand with h5 | h5
      · rcases List.mem_append.mp h5 with h6 | h6
        · exact absurd h6 (fun hh => lot_not_in_onC h1 hh)
        · exact absurd h6 (fun hh => lot_not_in_offC h2 hh)
      · exact List.mem_append.mpr (Or.inr h5)
    · rintro ⟨hcand, hpos⟩
      refine ⟨?_, hpos⟩
      rcases List.mem_append.mp hcand with h5 | h5
      · rcases List.mem_append.mp h5 with h6 | h6
        · exact absurd h6 (fun hh => lot_not_in_onC h1 hh)
        · exact absurd h6 (fun hh => lot_not_in_offC g2 hh)
      · exact List.mem_append.mpr (Or.inr h5)

/-! Concrete query store used by the C5 and C6 witnesses: one private
building (one spot) and one lot (two spots) on driving lane 11. -/

/-- Witness map: a private building and a two-spot lot reached from lane 11. -/
def mQ : MapModel :=
  { lanes := [],
    buildings := [⟨5, some ⟨none, ⟨11, 40⟩, 1⟩⟩],
    lots := [⟨1, ⟨11, 50⟩, 2⟩],
    turns := [],
    equivPos := fun p _ _ => p,
    parkingToDriving := fun _ => none,
    findClosestSidewalk := fun _ => none }

/-- Witness store indexing the entities of `mQ`. -/
def stQ : ParkingSimState :=
  { emptyStore with
      num_spots_per_offstreet := [(5, 1)],
      driving_to_offstreet := [(11, 5)],
      num_spots_per_lot := [(1, 2)],
      driving_to_lots := [(11, 1)] }

/-- Witness vehicle. -/
def vehQ : Vehicle := ⟨7, 4, none⟩

/-- Witness query position: the start of driving lane 11. -/
def dpQ : Position := ⟨11, 0⟩

/-- C5 witness: the theorem applied to the concrete query store. -/
theorem C5_spots_free_and_ahead_witness :
    stQ.is_free (ParkingSpot.lot 1 0) = true ∧ dpQ.dist < (⟨11, 50⟩ : Position).dist :=
  C5_spots_free_and_ahead stQ dpQ vehQ 99 mQ
    [(ParkingSpot.lot 1 0, ⟨11, 50⟩), (ParkingSpot.lot 1 1, ⟨11, 50⟩)]
    (by decide) (fun pl fd h => h) rfl (ParkingSpot.lot 1 0) ⟨11, 50⟩ (by decide)

/-- C6 witness: lot results are unchanged when the target building changes
from the private building 5 to an unrelated building 99. -/
theorem C6_privacy_filter_witness :
    (ParkingSpot.lot 1 0, (⟨11, 50⟩ : Position)) ∈
        [(ParkingSpot.offstreet 5 0, (⟨11, 40⟩ : Position)),
         (ParkingSpot.lot 1 0, (⟨11, 50⟩ : Position)),
         (ParkingSpot.lot 1 1, (⟨11, 50⟩ : Position))] ↔
      (ParkingSpot.lot 1 0, (⟨11, 50⟩ : Position)) ∈
        [(ParkingSpot.lot 1 0, (⟨11, 50⟩ : Position)),
         (ParkingSpot.lot 1 1, (⟨11, 50⟩ : Position))] :=
  (C6_privacy_filter stQ dpQ vehQ 5 mQ
      [(ParkingSpot.offstreet 5 0, ⟨11, 40⟩),
       (ParkingSpot.lot 1 0, ⟨11, 50⟩),
       (ParkingSpot.lot 1 1, ⟨11, 50⟩)] rfl).2 99
    [(ParkingSpot.lot 1 0, ⟨11, 50⟩), (ParkingSpot.lot 1 1, ⟨11, 50⟩)] rfl 1 0 ⟨11, 50⟩

/-! ### The nearest-free-spot search (`path_to_free_parking_spot`)

The Rust code uses `BinaryHeap<(Distance, LaneID)>` — a max-heap under the
derived lexicographic order — and pushes negated distances.  The heap is
embedded as a list (the multiset of entries); `heapPop` removes the
lexicographically maximal pair, exactly what `BinaryHeap::pop` returns. -/

/-- The derived lexicographic order on `(Distance, LaneID)` pairs. -/
def pairLe (a b : Dst × Nat) : Prop :=
  a.1 < b.1 ∨ (a.1 = b.1 ∧ a.2 ≤ b.2)

instance (a b : Dst × Nat) : Decidable (pairLe a b) := by
  unfold pairLe
  infer_instance

/-- Remove the first occurrence of an element. -/
def eraseFirst (x : Dst × Nat) : List (Dst × Nat) → List (Dst × Nat)
  | [] => []
  | y :: ys => if y = x then ys else y :: eraseFirst x ys

/-- `BinaryHeap::pop`: remove and return the maximal element. -/
def heapPop (q : List (Dst × Nat)) : Option ((Dst × Nat) × List (Dst × Nat)) :=
  match q with
  | [] => none
  | x :: xs =>
    let mx := xs.foldl (fun a b => if pairLe a b then b else a) x
    some (mx, eraseFirst mx q)

/-- The expansion step over the car-legal turns out of the popped lane
(`map.get_l(current).length()` panics on an unknown lane). -/
def stepExpand (m : MapModel) (current : LaneID) (dist_so_far : Dst) :
    List Turn → List (Dst × Nat) × List (Nat × TurnID) →
    Option (List (Dst × Nat) × List (Nat × TurnID))
  | [], qb => some qb
  | t :: ts, (q, br) =>
    if containsKey t.id.dst br then stepExpand m current dist_so_far ts (q, br)
    else
      match getL? m current with
      | none => none
      | some lcur =>
        stepExpand m current dist_so_far ts
          ((dist_so_far - (t.geomLength + lcur.length), t.id.dst) :: q,
           (t.id.dst, t.id) :: br)

/-- The backreference walk of the path reconstruction (Rust `Vec` push is
append, `pop` is `dropLast`; `backrefs[&current]` panics when absent). -/
def reconstruct (start : LaneID) :
    Nat → List (Nat × TurnID) → LaneID → List PathStep → Option (List PathStep)
  | 0, _, _, _ => none
  | fuel+1, backrefs, current, steps =>
    if current = start then some (steps.dropLast.reverse)
    else
      match lookupA current backrefs with
      | none => none
      | some t =>
        reconstruct start fuel backrefs t.src
          (steps ++ [PathStep.turn t, PathStep.lane t.src])

/-- `min_by_key(|(_, pos)| pos.dist_along())`: the first minimum on ties. -/
def minByPosDist : List (ParkingSpot × Position) → Option (ParkingSpot × Position)
  | [] => none
  | x :: xs => some (xs.foldl (fun a b => if b.2.dist < a.2.dist then b else a) x)

/-- A search result: forward path steps, the chosen spot, its position. -/
abbrev SearchHit := List PathStep × ParkingSpot × Position

/-- The main loop of `path_to_free_parking_spot`: outer `none` is the
fatal-failure / fuel-exhaustion path (never reached from the initial state),
`some none` is the legitimate "no reachable free spot" outcome. -/
def searchLoop (st : ParkingSimState) (veh : Vehicle) (target : BuildingID)
    (m : MapModel) (start : LaneID) :
    Nat → List (Dst × Nat) → List (Nat × TurnID) → Option (Option SearchHit)
  | 0, _, _ => none
  | fuel+1, queue, backrefs =>
    match heapPop queue with
    | none => some none
    | some ((dist_so_far, current), rest) =>
      if current = start then
        match stepExpand m current dist_so_far (getTurnsCar m current) (rest, backrefs) with
        | none => none
        | some (q', br') => searchLoop st veh target m start fuel q' br'
      else
        match st.get_all_free_spots ⟨current, 0⟩ veh target m with
        | none => none
        | some results =>
          match minByPosDist results with
          | some (spot, pos) =>
            match reconstruct start (backrefs.length + 1) backrefs current
                [PathStep.lane current] with
            | none => none
            | some steps => some (some (steps, spot, pos))
          | none =>
            match stepExpand m current dist_so_far (getTurnsCar m current)
                (rest, backrefs) with
            | none => none
            | some (q', br') => searchLoop st veh target m start fuel q' br'

/-- `ParkingSimState::path_to_free_parking_spot`.  The fuel bound exceeds the
maximal number of loop iterations (1 initial push + at most one push per
distinct turn target). -/
def ParkingSimState.path_to_free_parking_spot (self : ParkingSimState) (start : LaneID)
    (vehicle : Vehicle) (target : BuildingID) (m : MapModel) :
    Option (Option SearchHit) :=
  searchLoop self vehicle target m start (m.turns.length + 2) [(0, start)] []

/-- Reachability from `start` along car-legal turns. -/
inductive Reaches (m : MapModel) (start : LaneID) : LaneID → Prop
  | refl : Reaches m start start
  | step {l : LaneID} {t : Turn} : Reaches m start l → t ∈ m.turns →
      t.id.src = l → Reaches m start t.id.dst

/-! ### Heap-order facts and C7 -/

theorem pairLe_refl (a : Dst × Nat) : pairLe a a := Or.inr ⟨rfl, le_refl _⟩

theorem pairLe_total (a b : Dst × Nat) : pairLe a b ∨ pairLe b a := by
  rcases lt_trichotomy a.1 b.1 with h | h | h
  · exact Or.inl (Or.inl h)
  · rcases Nat.le_total a.2 b.2 with h2 | h2
    · exact Or.inl (Or.inr ⟨h, h2⟩)
    · exact Or.inr (Or.inr ⟨h.symm, h2⟩)
  · exact Or.inr (Or.inl h)

theorem pairLe_trans {a b c : Dst × Nat} (h1 : pairLe a b) (h2 : pairLe b c) :
    pairLe a c := by
  rcases h1 with h1 | ⟨he1, hl1⟩ <;> rcases h2 with h2 | ⟨he2, hl2⟩
  · exact Or.inl (lt_trans h1 h2)
  · exact Or.inl (he2 ▸ h1)
  · exact Or.inl (he1 ▸ h2)
  · exact Or.inr ⟨he1.trans he2, hl1.trans hl2⟩

theorem foldlPairMax_mem :
    ∀ (xs : List (Dst × Nat)) (x : Dst × Nat),
      xs.foldl (fun a b => if pairLe a b then b else a) x ∈ x :: xs := by
  intro xs
  induction xs with
  | nil => intro x; exact List.mem_cons_self x []
  | cons y ys ih =>
    intro x
    rw [List.foldl_cons]
    have hm := ih (if pairLe x y then y else x)
    rcases List.mem_cons.mp hm with he | hm2
    · rw [he]
      by_cases hc : pairLe x y
      · rw [if_pos hc]
        exact List.mem_cons_of_mem _ (List.mem_cons_self _ _)
      · rw [if_neg hc]
        exact List.mem_cons_self _ _
    · exact List.mem_cons_of_mem _ (List.mem_cons_of_mem _ hm2)

theorem foldlPairMax_ge :
    ∀ (xs : List (Dst × Nat)) (x y : Dst × Nat), y ∈ x :: xs →
      pairLe y (xs.foldl (fun a b => if pairLe a b then b else a) x) := by
  intro xs
  induction xs with
  | nil =>
    intro x y hy
    rcases List.mem_cons.mp hy with he | he
    · rw [he]; exact pairLe_refl x
    · exact absurd he (List.not_mem_nil _)
  | cons z zs ih =>
    intro x y hy
    rw [List.foldl_cons]
    have hxf : pairLe x (if pairLe x z then z else x) := by
      by_cases hc : pairLe x z
      · rw [if_pos hc]; exact hc
      · rw [if_neg hc]; exact pairLe_refl x
    have hzf : pairLe z (if pairLe x z then z else x) := by
      by_cases hc : pairLe x z
      · rw [if_pos hc]; exact pairLe_refl z
      · rw [if_neg hc]
        rcases pairLe_total z x with h | h
        · exact h
        · exact absurd h hc
    have hftop := ih (if pairLe x z then z else x) (if pairLe x z then z else x)
      (List.mem_cons_self _ _)
    rcases List.mem_cons.mp hy with he | hy2
    · rw [he]; exact pairLe_trans hxf hftop
    · rcases List.mem_cons.mp hy2 with he | hy3
      · rw [he]; exact pairLe_trans hzf hftop
      · exact ih _ y (List.mem_cons_of_mem _ hy3)

theorem eraseFirst_perm {x : Dst × Nat} :
    ∀ {l : List (Dst × Nat)}, x ∈ l → l.Perm (x :: eraseFirst x l) := by
  intro l
  induction l with
  | nil => intro h; exact absurd h (List.not_mem_nil _)
  | cons y ys ih =>
    intro h
    unfold eraseFirst
    by_cases he : y = x
    · rw [if_pos he, he]
    · rw [if_neg he]
      have hx : x ∈ ys := by
        rcases List.mem_cons.mp h with h1 | h1
        · exact absurd h1.symm he
        · exact h1
      exact List.Perm.trans (List.Perm.cons y (ih hx))
        (List.Perm.swap x y (eraseFirst x ys))

theorem heapPop_spec {q : List (Dst × Nat)} {mx : Dst × Nat} {rest : List (Dst × Nat)}
    (h : heapPop q = some (mx, rest)) :
    mx ∈ q ∧ (∀ y ∈ q, pairLe y mx) ∧ q.Perm (mx :: rest) := by
  unfold heapPop at h
  cases q with
  | nil => exact Option.noConfusion h
  | cons x xs =>
    have h2 := Option.some.inj h
    have hmx : xs.foldl (fun a b => if pairLe a b then b else a) x = mx :=
      congrArg Prod.fst h2
    have hrest : eraseFirst (xs.foldl (fun a b => if pairLe a b then b else a) x) (x :: xs)
        = rest := congrArg Prod.snd h2
    have hmem : mx ∈ x :: xs := hmx ▸ foldlPairMax_mem xs x
    refine ⟨hmem, fun y hy => hmx ▸ foldlPairMax_ge xs x y hy, ?_⟩
    rw [hmx] at hrest
    rw [← hrest]
    exact eraseFirst_perm hmem

theorem heapPop_none_iff {q : List (Dst × Nat)} : heapPop q = none ↔ q = [] := by
  cases q <;> simp [heapPop]

/-- The pop discipline the claim describes, modelled from the spec: a
min-priority-queue ordered by (accumulated distance, lane id) ascending; the
stored first component is the negated accumulated distance, so ascending
accumulated distance means descending stored component. -/
def ascLt (a b : Dst × Nat) : Prop := b.1 < a.1 ∨ (a.1 = b.1 ∧ a.2 < b.2)

instance (a b : Dst × Nat) : Decidable (ascLt a b) := by
  unfold ascLt
  infer_instance

/-- Modelled from the spec: pop of the claimed (distance, lane-id)-ascending
min-priority-queue. -/
def specPopAsc (q : List (Dst × Nat)) : Option ((Dst × Nat) × List (Dst × Nat)) :=
  match q with
  | [] => none
  | x :: xs =>
    let mn := xs.foldl (fun a b => if ascLt b a then b else a) x
    some (mn, eraseFirst mn q)

/-- C7 counterexample: on two candidates at equal accumulated distance 5
(stored negated), the code's max-heap pops lane 2 before lane 1 — the claimed
ascending lane-id tie-break would pop lane 1 first. -/
theorem C7_counterexample :
    heapPop [((-5 : Dst), 1), ((-5 : Dst), 2)]
        ≠ specPopAsc [((-5 : Dst), 1), ((-5 : Dst), 2)] ∧
    heapPop [((-5 : Dst), 1), ((-5 : Dst), 2)]
        = some (((-5 : Dst), 2), [((-5 : Dst), 1)]) ∧
    specPopAsc [((-5 : Dst), 1), ((-5 : Dst), 2)]
        = some (((-5 : Dst), 1), [((-5 : Dst), 2)]) := by
  refine ⟨?_, by decide, by decide⟩
  decide

/-- C7 (amended): the search's queue pops the candidate with the smallest
accumulated distance first (largest stored negated distance), and ties at
equal distance are broken by lane identifier descending (largest lane id
first) — deterministic, but the opposite of ascending. -/
theorem C7_amended_pop_order (q : List (Dst × Nat)) (x : Dst × Nat)
    (rest : List (Dst × Nat)) (h : heapPop q = some (x, rest)) :
    x ∈ q ∧ ∀ y ∈ q, y.1 < x.1 ∨ (y.1 = x.1 ∧ y.2 ≤ x.2) := by
  obtain ⟨hm, hge, -⟩ := heapPop_spec h
  exact ⟨hm, fun y hy => hge y hy⟩

/-- C7 witness: the amended pop order evaluated on the concrete tied queue. -/
theorem C7_amended_pop_order_witness :
    ((-5 : Dst), 2) ∈ [((-5 : Dst), 1), ((-5 : Dst), 2)] ∧
    (((-5 : Dst), 1).1 < ((-5 : Dst), 2).1 ∨
      (((-5 : Dst), 1).1 = ((-5 : Dst), 2).1 ∧ ((-5 : Dst), 1).2 ≤ ((-5 : Dst), 2).2)) :=
  ⟨(C7_amended_pop_order [((-5 : Dst), 1), ((-5 : Dst), 2)] ((-5 : Dst), 2)
      [((-5 : Dst), 1)] (by decide)).1,
   (C7_amended_pop_order [((-5 : Dst), 1), ((-5 : Dst), 2)] ((-5 : Dst), 2)
      [((-5 : Dst), 1)] (by decide)).2 ((-5 : Dst), 1) (by decide)⟩

/-! ### Reconstruction correctness

`GoodChain` is the invariant the search maintains on `backrefs`: each entry
maps the turn's destination lane, keys are inserted at most once, and each
entry's source lane was already reachable (the start lane or an
earlier-inserted key), so backreference walks terminate at `start`. -/

def GoodChain (start : LaneID) : List (Nat × TurnID) → Prop
  | [] => True
  | (l, t) :: rest =>
      t.dst = l ∧ (t.src = start ∨ containsKey t.src rest = true) ∧
      containsKey l rest = false ∧ GoodChain start rest

theorem goodChain_lookup_dst {start : LaneID} :
    ∀ {br : List (Nat × TurnID)}, GoodChain start br →
      ∀ {c t}, lookupA c br = some t → t.dst = c := by
  intro br
  induction br with
  | nil => intro _ c t h; exact Option.noConfusion h
  | cons e rest ih =>
    intro hg c t h
    cases e with
    | mk l tl =>
      obtain ⟨hdst, _, _, hrest⟩ := hg
      unfold lookupA at h
      by_cases hl : l = c
      · rw [if_pos hl] at h
        have he : tl = t := Option.some.inj h
        rw [← he, hdst]
        exact hl
      · rw [if_neg hl] at h
        exact ih hrest h

/-- The backreference walk as a relation: from lane `c`, following `br`
lookups down to `start` yields the turn list `ts` (nearest turn first). -/
inductive Chain (br : List (Nat × TurnID)) (start : LaneID) : LaneID → List TurnID → Prop
  | done : Chain br start start []
  | more {c : LaneID} {t : TurnID} {ts : List TurnID} :
      c ≠ start → lookupA c br = some t → Chain br start t.src ts →
      Chain br start c (t :: ts)

/-- The steps the Rust loop pushes while walking (reverse order). -/
def renderSegs : List TurnID → List PathStep
  | [] => []
  | t :: ts => PathStep.turn t :: PathStep.lane t.src :: renderSegs ts

/-- The forward steps of a reconstructed path. -/
def renderFwd : List TurnID → List PathStep
  | [] => []
  | t :: ts => PathStep.turn t :: PathStep.lane t.dst :: renderFwd ts

/-- The alternating turn/lane shape of a forward path. -/
def altTL : List PathStep → Bool
  | [] => true
  | PathStep.turn _ :: PathStep.lane _ :: rest => altTL rest
  | _ => false

theorem chain_lift {start : LaneID} {l : Nat} {tl : TurnID}
    {rest : List (Nat × TurnID)} (hfresh : containsKey l rest = false) :
    ∀ {c ts}, Chain rest start c ts → Chain ((l, tl) :: rest) start c ts := by
  intro c ts h
  induction h with
  | done => exact Chain.done
  | more hne hlk hsub ih =>
    rename_i c' t' ts'
    refine Chain.more hne ?_ ih
    have hcne : l ≠ c' := by
      intro he
      rw [he] at hfresh
      unfold containsKey at hfresh
      rw [hlk] at hfresh
      exact Bool.noConfusion hfresh
    unfold lookupA
    rw [if_neg hcne]
    exact hlk

theorem chain_exists {start : LaneID} :
    ∀ {br : List (Nat × TurnID)}, GoodChain start br →
      ∀ c, (c = start ∨ containsKey c br = true) →
        ∃ ts, Chain br start c ts ∧ ts.length ≤ br.length := by
  intro br
  induction br with
  | nil =>
    intro _ c hc
    rcases hc with rfl | hc
    · exact ⟨[], Chain.done, Nat.le_refl _⟩
    · unfold containsKey lookupA at hc
      exact Bool.noConfusion hc
  | cons e rest ih =>
    intro hg c hc
    cases e with
    | mk l tl =>
      obtain ⟨hdst, hsrc, hfresh, hrest⟩ := hg
      rcases hc with rfl | hc
      · exact ⟨[], Chain.done, Nat.zero_le _⟩
      · by_cases hcs : c = start
        · exact ⟨[], hcs ▸ Chain.done, Nat.zero_le _⟩
        · by_cases hlc : l = c
          · -- the entry (l, tl) itself is the next link
            have hlk : lookupA c ((l, tl) :: rest) = some tl := by
              unfold lookupA
              rw [if_pos hlc]
            rcases hsrc with hs | hs
            · exact ⟨[tl], Chain.more hcs hlk (hs ▸ Chain.done),
                by simp⟩
            · obtain ⟨ts, hch, hlen⟩ := ih hrest tl.src (Or.inr hs)
              exact ⟨tl :: ts, Chain.more hcs hlk (chain_lift hfresh hch),
                by simpa using Nat.succ_le_succ hlen⟩
          · have hc2 : containsKey c rest = true := by
              unfold containsKey lookupA at hc
              rw [if_neg hlc] at hc
              exact hc
            obtain ⟨ts, hch, hlen⟩ := ih hrest c (Or.inr hc2)
            exact ⟨ts, chain_lift hfresh hch, Nat.le_succ_of_le hlen⟩

theorem reconstruct_run {start : LaneID} {br : List (Nat × TurnID)} :
    ∀ {c : LaneID} {ts : List TurnID}, Chain br start c ts →
      ∀ fuel, ts.length + 1 ≤ fuel → ∀ acc,
        reconstruct start fuel br c acc = some ((acc ++ renderSegs ts).dropLast.reverse) := by
  intro c ts h
  induction h with
  | done =>
    intro fuel hf acc
    cases fuel with
    | zero => exact absurd hf (by simp)
    | succ f =>
      unfold reconstruct
      rw [if_pos rfl]
      rw [show renderSegs [] = [] from rfl, List.append_nil]
  | more hne hlk hch ih =>
    rename_i c' t' ts'
    intro fuel hf acc
    cases fuel with
    | zero => exact absurd hf (by simp)
    | succ f =>
      unfold reconstruct
      rw [if_neg hne]
      simp only [hlk]
      have hf2 : ts'.length + 1 ≤ f := by
        simp only [List.length_cons] at hf
        omega
      rw [ih f hf2 (acc ++ [PathStep.turn t', PathStep.lane t'.src])]
      rw [show renderSegs (t' :: ts')
            = PathStep.turn t' :: PathStep.lane t'.src :: renderSegs ts' from rfl]
      rw [List.append_assoc]
      rfl

theorem renderFwd_append : ∀ (l1 l2 : List TurnID),
    renderFwd (l1 ++ l2) = renderFwd l1 ++ renderFwd l2 := by
  intro l1 l2
  induction l1 with
  | nil => rfl
  | cons t ts ih =>
    show PathStep.turn t :: PathStep.lane t.dst :: renderFwd (ts ++ l2) = _
    rw [ih]
    rfl

theorem altTL_renderFwd : ∀ ts : List TurnID, altTL (renderFwd ts) = true := by
  intro ts
  induction ts with
  | nil => rfl
  | cons t ts ih =>
    show altTL (PathStep.turn t :: PathStep.lane t.dst :: renderFwd ts) = true
    unfold altTL
    exact ih

theorem chain_nil {br : List (Nat × TurnID)} {start x : LaneID}
    (h : Chain br start x []) : x = start := by
  cases h
  rfl

theorem chain_closed_form {start : LaneID} {br : List (Nat × TurnID)}
    (hg : GoodChain start br) :
    ∀ {c ts}, Chain br start c ts →
      (PathStep.lane c :: renderSegs ts).dropLast.reverse = renderFwd ts.reverse := by
  intro c ts h
  induction h with
  | done => rfl
  | more hne hlk hsub ih =>
    rename_i c' t' ts'
    have hdst : t'.dst = c' := goodChain_lookup_dst hg hlk
    have hstep : (PathStep.lane c' :: renderSegs (t' :: ts')).dropLast
        = PathStep.lane c' :: PathStep.turn t'
            :: (PathStep.lane t'.src :: renderSegs ts').dropLast := rfl
    rw [hstep, List.reverse_cons, List.reverse_cons, ih]
    rw [show (t' :: ts').reverse = ts'.reverse ++ [t'] from List.reverse_cons t' ts']
    rw [renderFwd_append]
    rw [show renderFwd [t'] = [PathStep.turn t', PathStep.lane t'.dst] from rfl, hdst]
    rw [List.append_assoc]
    rfl

theorem chain_last_src {br : List (Nat × TurnID)} {start : LaneID} :
    ∀ {c ts}, Chain br start c ts →
      ts = [] ∨ ∃ rest tl, ts = rest ++ [tl] ∧ tl.src = start := by
  intro c ts h
  induction h with
  | done => exact Or.inl rfl
  | more hne hlk hsub ih =>
    rename_i c' t' ts'
    right
    rcases ih with h0 | ⟨rest, tl, hts, hsrc⟩
    · rw [h0] at hsub
      exact ⟨[], t', by rw [h0]; rfl, chain_nil hsub⟩
    · exact ⟨t' :: rest, tl, by rw [hts]; rfl, hsrc⟩

theorem chain_dst_ne_start {start : LaneID} {br : List (Nat × TurnID)}
    (hg : GoodChain start br) :
    ∀ {c ts}, Chain br start c ts → ∀ t ∈ ts, t.dst ≠ start := by
  intro c ts h
  induction h with
  | done => intro t ht; exact absurd ht (List.not_mem_nil _)
  | more hne hlk hsub ih =>
    rename_i c' t' ts'
    intro t ht
    rcases List.mem_cons.mp ht with he | ht2
    · rw [he, goodChain_lookup_dst hg hlk]
      exact hne
    · exact ih t ht2

theorem mem_renderFwd {x : PathStep} :
    ∀ {ts : List TurnID}, x ∈ renderFwd ts →
      ∃ t, t ∈ ts ∧ (x = PathStep.turn t ∨ x = PathStep.lane t.dst) := by
  intro ts
  induction ts with
  | nil => intro h; exact absurd h (List.not_mem_nil _)
  | cons t ts ih =>
    intro h
    have h2 : x ∈ PathStep.turn t :: PathStep.lane t.dst :: renderFwd ts := h
    rcases List.mem_cons.mp h2 with he | h3
    · exact ⟨t, List.mem_cons_self _ _, Or.inl he⟩
    · rcases List.mem_cons.mp h3 with he | h4
      · exact ⟨t, List.mem_cons_self _ _, Or.inr he⟩
      · obtain ⟨t2, hm2, hx2⟩ := ih h4
        exact ⟨t2, List.mem_cons_of_mem _ hm2, hx2⟩

theorem reconstruct_correct {start : LaneID} {br : List (Nat × TurnID)}
    (hg : GoodChain start br) {c : LaneID} (hc : containsKey c br = true)
    (hne : c ≠ start) :
    ∃ steps, reconstruct start (br.length + 1) br c [PathStep.lane c] = some steps ∧
      altTL steps = true ∧
      (∃ t, steps.head? = some (PathStep.turn t) ∧ t.src = start) ∧
      steps.getLast? = some (PathStep.lane c) ∧
      PathStep.lane start ∉ steps ∧ steps ≠ [] := by
  obtain ⟨ts, hch, hlen⟩ := chain_exists hg c (Or.inr hc)
  have hrun := reconstruct_run hch (br.length + 1) (by omega) [PathStep.lane c]
  have hclosed := chain_closed_form hg hch
  have hts : ts ≠ [] := by
    intro h0
    rw [h0] at hch
    exact hne (chain_nil hch)
  have hhead : ∃ t, (renderFwd ts.reverse).head? = some (PathStep.turn t) ∧
      t.src = start := by
    rcases chain_last_src hch with h0 | ⟨rest, tl, hts2, hsrc⟩
    · exact absurd h0 hts
    · refine ⟨tl, ?_, hsrc⟩
      rw [hts2, List.reverse_append]
      rfl
  refine ⟨renderFwd ts.reverse, ?_, altTL_renderFwd _, hhead, ?_, ?_, ?_⟩
  · rw [hrun]
    rw [show ([PathStep.lane c] ++ renderSegs ts) = PathStep.lane c :: renderSegs ts
          from rfl]
    rw [hclosed]
  · cases hch with
    | done => exact absurd rfl hne
    | more hne2 hlk2 hsub =>
      rename_i t1 ts1
      have hdst : t1.dst = c := goodChain_lookup_dst hg hlk2
      rw [show (t1 :: ts1).reverse = ts1.reverse ++ [t1] from List.reverse_cons t1 ts1]
      rw [renderFwd_append]
      rw [show renderFwd [t1] = [PathStep.turn t1, PathStep.lane t1.dst] from rfl]
      rw [show renderFwd ts1.reverse ++ [PathStep.turn t1, PathStep.lane t1.dst]
            = (renderFwd ts1.reverse ++ [PathStep.turn t1]) ++ [PathStep.lane t1.dst]
          from by rw [List.append_assoc]; rfl]
      rw [List.getLast?_concat, hdst]
  · intro hmem
    obtain ⟨t, hmt, hx⟩ := mem_renderFwd hmem
    rcases hx with hx | hx
    · exact PathStep.noConfusion hx
    · have hds : start = t.dst := PathStep.lane.inj hx
      exact chain_dst_ne_start hg hch t (List.mem_reverse.mp hmt) hds.symm
  · intro h0
    obtain ⟨t, ht, -⟩ := hhead
    rw [h0] at ht
    exact Option.noConfusion ht

/-! ### Expansion-step and potential-function facts -/

theorem minByPosDist_none_iff {results : List (ParkingSpot × Position)} :
    minByPosDist results = none ↔ results = [] := by
  cases results <;> simp [minByPosDist]

theorem foldlPosMin_mem :
    ∀ (xs : List (ParkingSpot × Position)) (x : ParkingSpot × Position),
      xs.foldl (fun a b => if b.2.dist < a.2.dist then b else a) x ∈ x :: xs := by
  intro xs
  induction xs with
  | nil => intro x; exact List.mem_cons_self x []
  | cons y ys ih =>
    intro x
    rw [List.foldl_cons]
    have hm := ih (if y.2.dist < x.2.dist then y else x)
    rcases List.mem_cons.mp hm with he | hm2
    · rw [he]
      by_cases hc : y.2.dist < x.2.dist
      · rw [if_pos hc]
        exact List.mem_cons_of_mem _ (List.mem_cons_self _ _)
      · rw [if_neg hc]
        exact List.mem_cons_self _ _
    · exact List.mem_cons_of_mem _ (List.mem_cons_of_mem _ hm2)

theorem foldlPosMin_le :
    ∀ (xs : List (ParkingSpot × Position)) (x y : ParkingSpot × Position),
      y ∈ x :: xs →
      (xs.foldl (fun a b => if b.2.dist < a.2.dist then b else a) x).2.dist ≤ y.2.dist := by
  intro xs
  induction xs with
  | nil =>
    intro x y hy
    rcases List.mem_cons.mp hy with he | he
    · rw [he]
      exact le_refl _
    · exact absurd he (List.not_mem_nil _)
  | cons z zs ih =>
    intro x y hy
    rw [List.foldl_cons]
    have hfx : (if z.2.dist < x.2.dist then z else x).2.dist ≤ x.2.dist := by
      by_cases hc : z.2.dist < x.2.dist
      · rw [if_pos hc]; exact le_of_lt hc
      · rw [if_neg hc]
    have hfz : (if z.2.dist < x.2.dist then z else x).2.dist ≤ z.2.dist := by
      by_cases hc : z.2.dist < x.2.dist
      · rw [if_pos hc]
      · rw [if_neg hc]; exact le_of_not_lt hc
    have htop := ih (if z.2.dist < x.2.dist then z else x)
      (if z.2.dist < x.2.dist then z else x) (List.mem_cons_self _ _)
    rcases List.mem_cons.mp hy with he | hy2
    · rw [he]; exact le_trans htop hfx
    · rcases List.mem_cons.mp hy2 with he | hy3
      · rw [he]; exact le_trans htop hfz
      · exact ih _ y (List.mem_cons_of_mem _ hy3)

theorem minByPosDist_spec {results : List (ParkingSpot × Position)}
    {x : ParkingSpot × Position} (h : minByPosDist results = some x) :
    x ∈ results ∧ ∀ y ∈ results, x.2.dist ≤ y.2.dist := by
  unfold minByPosDist at h
  cases results with
  | nil => exact Option.noConfusion h
  | cons a as =>
    have hx : as.foldl (fun a b => if b.2.dist < a.2.dist then b else a) a = x :=
      Option.some.inj h
    constructor
    · exact hx ▸ foldlPosMin_mem as a
    · intro y hy
      exact hx ▸ foldlPosMin_le as a y hy

theorem getTurnsCar_mem {m : MapModel} {l : LaneID} {t : Turn} :
    t ∈ getTurnsCar m l ↔ t ∈ m.turns ∧ t.id.src = l := by
  unfold getTurnsCar
  rw [List.mem_filter]
  simp

theorem containsKey_cons {α β : Type} [DecidableEq α] {k l : α} {v : β}
    {br : List (α × β)} :
    containsKey l ((k, v) :: br) = (decide (k = l) || containsKey l br) := by
  by_cases h : k = l
  · have h1 : lookupA l ((k, v) :: br) = some v := by
      unfold lookupA
      rw [if_pos h]
    unfold containsKey
    rw [h1]
    simp [h]
  · have h1 : lookupA l ((k, v) :: br) = lookupA l br := by
      conv_lhs => unfold lookupA
      rw [if_neg h]
    unfold containsKey
    rw [h1]
    simp [h]

theorem containsKey_cons_of {α β : Type} [DecidableEq α] {k l : α} {v : β}
    {br : List (α × β)} (h : containsKey l br = true) :
    containsKey l ((k, v) :: br) = true := by
  rw [containsKey_cons, h, Bool.or_true]

theorem containsKey_cons_self {α β : Type} [DecidableEq α] {k : α} {v : β}
    {br : List (α × β)} : containsKey k ((k, v) :: br) = true := by
  rw [containsKey_cons]
  simp

/-- The number of still-insertable backreference keys: distinct turn targets
not yet recorded.  Together with the queue length this strictly decreases at
every loop iteration. -/
def insertableCount (m : MapModel) (br : List (Nat × TurnID)) : Nat :=
  (((m.turns.map (fun t => t.id.dst)).dedup).filter (fun l => !containsKey l br)).length

theorem filter_length_split :
    ∀ (L : List Nat), L.Nodup → ∀ k, k ∈ L → ∀ p : Nat → Bool, p k = true →
      (L.filter p).length = (L.filter (fun x => p x && !decide (x = k))).length + 1 := by
  intro L
  induction L with
  | nil => intro _ k hk; exact absurd hk (List.not_mem_nil _)
  | cons a L ih =>
    intro hnd k hk p hp
    have hnd2 := List.nodup_cons.mp hnd
    rcases List.mem_cons.mp hk with he | hk2
    · rw [← he] at hnd2 ⊢
      have hcong : L.filter p = L.filter (fun x => p x && !decide (x = k)) := by
        apply List.filter_congr
        intro x hx
        have hne : ¬ x = k := fun hxe => hnd2.1 (hxe ▸ hx)
        simp [hne]
      rw [List.filter_cons, List.filter_cons, hp]
      have h2 : (true && !decide (k = k)) = false := by simp
      rw [h2]
      rw [if_pos rfl]
      rw [if_neg (by simp : ¬ (false = true))]
      rw [List.length_cons, hcong]
    · have hak : ¬ a = k := fun hae => hnd2.1 (hae ▸ hk2)
      rw [List.filter_cons, List.filter_cons]
      rw [show (p a && !decide (a = k)) = p a by simp [hak]]
      by_cases hpa : p a = true
      · rw [hpa, if_pos rfl, if_pos rfl]
        rw [List.length_cons, List.length_cons]
        rw [ih hnd2.2 k hk2 p hp]
      · rw [show p a = false by revert hpa; cases p a <;> simp]
        rw [if_neg (by simp : ¬ (false = true)), if_neg (by simp : ¬ (false = true))]
        exact ih hnd2.2 k hk2 p hp

theorem insertableCount_insert {m : MapModel} {t : Turn} {br : List (Nat × TurnID)}
    (ht : t ∈ m.turns) (hfree : containsKey t.id.dst br = false) :
    insertableCount m ((t.id.dst, t.id) :: br) + 1 = insertableCount m br := by
  unfold insertableCount
  have hk : t.id.dst ∈ (m.turns.map (fun t => t.id.dst)).dedup :=
    List.mem_dedup.mpr (List.mem_map.mpr ⟨t, ht, rfl⟩)
  have hp : (fun l => !containsKey l br) t.id.dst = true := by
    show (!containsKey t.id.dst br) = true
    rw [hfree]
    rfl
  have hsplit := filter_length_split ((m.turns.map (fun t => t.id.dst)).dedup)
    (List.nodup_dedup _) t.id.dst hk (fun l => !containsKey l br) hp
  rw [hsplit]
  have hcong : ((m.turns.map (fun t => t.id.dst)).dedup).filter
        (fun l => !containsKey l ((t.id.dst, t.id) :: br))
      = ((m.turns.map (fun t => t.id.dst)).dedup).filter
        (fun x => (fun l => !containsKey l br) x && !decide (x = t.id.dst)) := by
    apply List.filter_congr
    intro x hx
    rw [containsKey_cons]
    by_cases hxe : x = t.id.dst
    · simp [hxe]
    · have hxe2 : ¬ t.id.dst = x := fun he => hxe he.symm
      simp [hxe, hxe2]
  rw [hcong]

theorem stepExpand_total {m : MapModel} {current : LaneID} {d : Dst}
    (hl : (getL? m current).isSome = true) :
    ∀ (ts : List Turn) (q : List (Dst × Nat)) (br : List (Nat × TurnID)),
      ∃ q' br', stepExpand m current d ts (q, br) = some (q', br') := by
  intro ts
  induction ts with
  | nil => intro q br; exact ⟨q, br, rfl⟩
  | cons t ts ih =>
    intro q br
    obtain ⟨lc, hg⟩ : ∃ lc, getL? m current = some lc := by
      cases hgl : getL? m current with
      | none => rw [hgl] at hl; exact Bool.noConfusion hl
      | some lc => exact ⟨lc, rfl⟩
    unfold stepExpand
    by_cases hc : containsKey t.id.dst br = true
    · rw [if_pos hc]
      exact ih q br
    · rw [if_neg hc]
      simp only [hg]
      exact ih _ _

theorem stepExpand_spec {m : MapModel} {current : LaneID} {d : Dst} :
    ∀ {ts : List Turn} {q0 q' : List (Dst × Nat)} {br0 br' : List (Nat × TurnID)},
      stepExpand m current d ts (q0, br0) = some (q', br') →
      (∀ l, containsKey l br0 = true → containsKey l br' = true) ∧
      (∀ p : Dst × Nat, p ∈ q0 → p ∈ q') ∧
      (∀ e : Nat × TurnID, e ∈ br' → e ∈ br0 ∨ ∃ t, t ∈ ts ∧ e = (t.id.dst, t.id)) ∧
      (∀ p : Dst × Nat, p ∈ q' → p ∈ q0 ∨ ∃ t, t ∈ ts ∧ p.2 = t.id.dst) ∧
      (∀ t, t ∈ ts → containsKey t.id.dst br' = true) ∧
      (∀ l, containsKey l br' = true →
        containsKey l br0 = true ∨ ∃ d2 : Dst, (d2, l) ∈ q') ∧
      (∀ start, GoodChain start br0 →
        (current = start ∨ containsKey current br0 = true) →
        (∀ t, t ∈ ts → t.id.src = current) → GoodChain start br') ∧
      ((∀ t, t ∈ ts → t ∈ m.turns) →
        insertableCount m br' + q'.length = insertableCount m br0 + q0.length) := by
  intro ts
  induction ts with
  | nil =>
    intro q0 q' br0 br' h
    unfold stepExpand at h
    have h2 := Option.some.inj h
    have hq : q0 = q' := congrArg Prod.fst h2
    have hb : br0 = br' := congrArg Prod.snd h2
    subst hq; subst hb
    refine ⟨fun l h => h, fun p h => h, fun e h => Or.inl h, fun p h => Or.inl h,
      fun t ht => absurd ht (List.not_mem_nil _), fun l h => Or.inl h,
      fun start hg _ _ => hg, fun _ => rfl⟩
  | cons t ts ih =>
    intro q0 q' br0 br' h
    unfold stepExpand at h
    by_cases hc : containsKey t.id.dst br0 = true
    · rw [if_pos hc] at h
      obtain ⟨m1, m2, m3, m4, m5, m6, m7, m8⟩ := ih h
      refine ⟨m1, m2, ?_, ?_, ?_, m6, ?_, ?_⟩
      · intro e he
        rcases m3 e he with h1 | ⟨t2, ht2, he2⟩
        · exact Or.inl h1
        · exact Or.inr ⟨t2, List.mem_cons_of_mem _ ht2, he2⟩
      · intro p hp
        rcases m4 p hp with h1 | ⟨t2, ht2, he2⟩
        · exact Or.inl h1
        · exact Or.inr ⟨t2, List.mem_cons_of_mem _ ht2, he2⟩
      · intro t2 ht2
        rcases List.mem_cons.mp ht2 with he | ht3
        · rw [he]
          exact m1 _ hc
        · exact m5 t2 ht3
      · intro start hg hcur hsrc
        exact m7 start hg hcur (fun t2 ht2 => hsrc t2 (List.mem_cons_of_mem _ ht2))
      · intro hts
        exact m8 (fun t2 ht2 => hts t2 (List.mem_cons_of_mem _ ht2))
    · rw [if_neg hc] at h
      cases hg : getL? m current with
      | none =>
        rw [hg] at h
        exact Option.noConfusion h
      | some lc =>
        rw [hg] at h
        simp only [] at h
        obtain ⟨m1, m2, m3, m4, m5, m6, m7, m8⟩ := ih h
        have hcfalse : containsKey t.id.dst br0 = false := by
          revert hc; cases containsKey t.id.dst br0 <;> simp
        refine ⟨?_, ?_, ?_, ?_, ?_, ?_, ?_, ?_⟩
        · intro l hl
          exact m1 l (containsKey_cons_of hl)
        · intro p hp
          exact m2 p (List.mem_cons_of_mem _ hp)
        · intro e he
          rcases m3 e he with h1 | ⟨t2, ht2, he2⟩
          · rcases List.mem_cons.mp h1 with he2 | h2
            · exact Or.inr ⟨t, List.mem_cons_self _ _, he2⟩
            · exact Or.inl h2
          · exact Or.inr ⟨t2, List.mem_cons_of_mem _ ht2, he2⟩
        · intro p hp
          rcases m4 p hp with h1 | ⟨t2, ht2, he2⟩
          · rcases List.mem_cons.mp h1 with he2 | h2
            · exact Or.inr ⟨t, List.mem_cons_self _ _, by rw [he2]⟩
            · exact Or.inl h2
          · exact Or.inr ⟨t2, List.mem_cons_of_mem _ ht2, he2⟩
        · intro t2 ht2
          rcases List.mem_cons.mp ht2 with he | ht3
          · rw [he]
            exact m1 _ containsKey_cons_self
          · exact m5 t2 ht3
        · intro l hl
          rcases m6 l hl with h1 | h1
          · rw [containsKey_cons] at h1
            by_cases hle : t.id.dst = l
            · refine Or.inr ⟨d - (t.geomLength + lc.length), ?_⟩
              rw [← hle]
              exact m2 _ (List.mem_cons_self _ _)
            · rw [show decide (t.id.dst = l) = false by simp [hle]] at h1
              rw [Bool.false_or] at h1
              exact Or.inl h1
          · exact Or.inr h1
        · intro start hgc hcur hsrc
          refine m7 start ?_ ?_ (fun t2 ht2 => hsrc t2 (List.mem_cons_of_mem _ ht2))
          · refine ⟨rfl, ?_, hcfalse, hgc⟩
            have hsrct : t.id.src = current := hsrc t (List.mem_cons_self _ _)
            rw [hsrct]
            exact hcur
          · rcases hcur with h1 | h1
            · exact Or.inl h1
            · exact Or.inr (containsKey_cons_of h1)
        · intro hts
          have h8 := m8 (fun t2 ht2 => hts t2 (List.mem_cons_of_mem _ ht2))
          have hins := insertableCount_insert (hts t (List.mem_cons_self _ _)) hcfalse
          rw [List.length_cons] at h8
          omega

/-! ### Totality of the enumerator under store/map consistency -/

theorem wfStoreB_offstreet {st : ParkingSimState} {m : MapModel}
    (h : wfStoreB st m = true) {dl : LaneID} {b : BuildingID}
    (hm : (dl, b) ∈ st.driving_to_offstreet) :
    ∃ bldg pk, getB? m b = some bldg ∧ bldg.parking = some pk ∧
      ∃ n, lookupA b st.num_spots_per_offstreet = some n := by
  have hb := (wfStoreB_split h).2.1
  rw [List.all_eq_true] at hb
  have hx := hb (dl, b) hm
  rw [Bool.and_eq_true] at hx
  obtain ⟨h1, h2⟩ := hx
  split at h1
  · next bldg hgb =>
      obtain ⟨pk, hpk⟩ := Option.isSome_iff_exists.mp h1
      refine ⟨bldg, pk, hgb, hpk, ?_⟩
      unfold containsKey at h2
      exact Option.isSome_iff_exists.mp h2
  · exact Bool.noConfusion h1

theorem wfStoreB_lots {st : ParkingSimState} {m : MapModel}
    (h : wfStoreB st m = true) {dl : LaneID} {pl : ParkingLotID}
    (hm : (dl, pl) ∈ st.driving_to_lots) :
    (∃ lot, getPl? m pl = some lot) ∧
      ∃ n, lookupA pl st.num_spots_per_lot = some n := by
  have hb := (wfStoreB_split h).2.2
  rw [List.all_eq_true] at hb
  have hx := hb (dl, pl) hm
  rw [Bool.and_eq_true] at hx
  obtain ⟨h1, h2⟩ := hx
  constructor
  · exact Option.isSome_iff_exists.mp h1
  · unfold containsKey at h2
    exact Option.isSome_iff_exists.mp h2

theorem onstreetCands_total {st : ParkingSimState} {dp : Position} {veh : Vehicle}
    {m : MapModel} :
    ∀ {ls : List LaneID},
      (∀ l, l ∈ ls → ∃ lane, lookupA l st.onstreet_lanes = some lane) →
      ∃ onC, onstreetCands st dp veh m ls = some onC := by
  intro ls
  induction ls with
  | nil => intro _; exact ⟨[], rfl⟩
  | cons l ls ih =>
    intro h
    obtain ⟨lane, hlk⟩ := h l (List.mem_cons_self _ _)
    obtain ⟨rest, hrest⟩ := ih (fun l' hl' => h l' (List.mem_cons_of_mem _ hl'))
    refine ⟨onstreetFrees st lane veh ((m.equivPos dp l dp.dist).dist) ++ rest, ?_⟩
    unfold onstreetCands
    simp only [hlk, hrest]

theorem offstreetCands_total {st : ParkingSimState} {dp : Position}
    {target : BuildingID} {m : MapModel} :
    ∀ {bs : List BuildingID},
      (∀ b, b ∈ bs → ∃ bldg pk, getB? m b = some bldg ∧ bldg.parking = some pk ∧
        ∃ n, lookupA b st.num_spots_per_offstreet = some n) →
      ∃ offC, offstreetCands st dp target m bs = some offC := by
  intro bs
  induction bs with
  | nil => intro _; exact ⟨[], rfl⟩
  | cons b bs ih =>
    intro h
    obtain ⟨bldg, pk, hgb, hpk, n, hn⟩ := h b (List.mem_cons_self _ _)
    obtain ⟨rest, hrest⟩ := ih (fun b' hb' => h b' (List.mem_cons_of_mem _ hb'))
    unfold offstreetCands
    simp only [hgb, hpk]
    by_cases hfil : pk.public_garage_name = none ∧ target ≠ b
    · rw [if_pos hfil]
      exact ⟨rest, hrest⟩
    · rw [if_neg hfil]
      simp only [hrest]
      by_cases hd : dp.dist < pk.driving_pos.dist
      · rw [if_pos hd]
        simp only [hn]
        exact ⟨offstreetFrees st b n ++ rest, rfl⟩
      · rw [if_neg hd]
        exact ⟨rest, rfl⟩

theorem lotCands_total {st : ParkingSimState} {dp : Position} {m : MapModel} :
    ∀ {pls : List ParkingLotID},
      (∀ pl, pl ∈ pls → (∃ lot, getPl? m pl = some lot) ∧
        ∃ n, lookupA pl st.num_spots_per_lot = some n) →
      ∃ lotC, lotCands st dp m pls = some lotC := by
  intro pls
  induction pls with
  | nil => intro _; exact ⟨[], rfl⟩
  | cons pl pls ih =>
    intro h
    obtain ⟨⟨lot, hgp⟩, n, hn⟩ := h pl (List.mem_cons_self _ _)
    obtain ⟨rest, hrest⟩ := ih (fun pl' hpl' => h pl' (List.mem_cons_of_mem _ hpl'))
    unfold lotCands
    simp only [hgp, hrest]
    by_cases hd : dp.dist < lot.driving_pos.dist
    · rw [if_pos hd]
      simp only [hn]
      exact ⟨lotFrees st pl n ++ rest, rfl⟩
    · rw [if_neg hd]
      exact ⟨rest, rfl⟩

theorem mapCands_total {st : ParkingSimState} {veh : Vehicle} {m : MapModel} :
    ∀ {cands : List ParkingSpot},
      (∀ s, s ∈ cands → ∃ p, st.spot_to_driving_pos s veh m = some p) →
      ∃ out, mapCands st veh m cands = some out := by
  intro cands
  induction cands with
  | nil => intro _; exact ⟨[], rfl⟩
  | cons s ss ih =>
    intro h
    obtain ⟨p, hp⟩ := h s (List.mem_cons_self _ _)
    obtain ⟨rest, hrest⟩ := ih (fun s' hs' => h s' (List.mem_cons_of_mem _ hs'))
    refine ⟨(s, p) :: rest, ?_⟩
    unfold mapCands
    simp only [hp, hrest]

theorem gafs_total {st : ParkingSimState} {veh : Vehicle} {target : BuildingID}
    {m : MapModel} (hwf : wfStoreB st m = true) (dp : Position) :
    ∃ out, st.get_all_free_spots dp veh target m = some out := by
  obtain ⟨onC, h1⟩ := @onstreetCands_total st dp veh m
    (multiGet st.driving_to_parking_lanes dp.lane)
    (fun l hl => by
      obtain ⟨lane, hlk, -, -⟩ := wfStoreB_parking hwf (multiGet_mem.mp hl)
      exact ⟨lane, hlk⟩)
  obtain ⟨offC, h2⟩ := @offstreetCands_total st dp target m
    (multiGet st.driving_to_offstreet dp.lane)
    (fun b hb => wfStoreB_offstreet hwf (multiGet_mem.mp hb))
  obtain ⟨lotC, h3⟩ := @lotCands_total st dp m
    (multiGet st.driving_to_lots dp.lane)
    (fun pl hpl => wfStoreB_lots hwf (multiGet_mem.mp hpl))
  have hcands : ∀ s, s ∈ onC ++ offC ++ lotC →
      ∃ p, st.spot_to_driving_pos s veh m = some p := by
    intro s hs
    rcases List.mem_append.mp hs with h5 | h5
    · rcases List.mem_append.mp h5 with h6 | h6
      · obtain ⟨l, lane, hml, hlk, hmf⟩ := onstreetCands_mem h1 h6
        obtain ⟨idx, dd, hg, hspot, -, -⟩ := mem_onstreetFrees.mp hmf
        obtain ⟨lane0, hlk0, hpl0, -⟩ := wfStoreB_parking hwf (multiGet_mem.mp hml)
        rw [hlk0] at hlk
        have hle : lane0 = lane := Option.some.inj hlk
        rw [hle] at hpl0
        refine ⟨m.equivPos ⟨lane.parking_lane, dd - (PARKING_SPOT_LENGTH - veh.length) / 2⟩
          lane.driving_lane veh.length, ?_⟩
        rw [hspot]
        simp only [ParkingSimState.spot_to_driving_pos]
        rw [show lookupA lane.parking_lane st.onstreet_lanes = some lane from by
          rw [hpl0, ← hle]; exact hlk0]
        have hd : lane.dist_along_for_car idx veh
            = some (dd - (PARKING_SPOT_LENGTH - veh.length) / 2) := by
          unfold ParkingLane.dist_along_for_car
          rw [hg]
          rfl
        simp only [hd]
      · obtain ⟨b, bldg, pk, n, -, hgb, hpk, -, -, -, hmf⟩ := offstreetCands_mem h2 h6
        obtain ⟨idx, -, hspot, -⟩ := mem_offstreetFrees.mp hmf
        refine ⟨pk.driving_pos, ?_⟩
        rw [hspot]
        simp only [ParkingSimState.spot_to_driving_pos, hgb, hpk]
    · obtain ⟨pl, lot, n, -, hgp, -, -, hmf⟩ := lotCands_mem h3 h5
      obtain ⟨idx, -, hspot, -⟩ := mem_lotFrees.mp hmf
      refine ⟨lot.driving_pos, ?_⟩
      rw [hspot]
      simp only [ParkingSimState.spot_to_driving_pos, hgp]
  obtain ⟨out, h4⟩ := mapCands_total hcands
  cases hx : st.get_all_free_spots dp veh target m with
  | some res => exact ⟨res, rfl⟩
  | none =>
    exfalso
    unfold ParkingSimState.get_all_free_spots at hx
    rw [h1] at hx
    simp only [] at hx
    rw [h2] at hx
    simp only [] at hx
    rw [h3] at hx
    simp only [] at hx
    rw [h4] at hx
    exact Option.noConfusion hx

/-! ### The search-loop master lemma -/

theorem searchLoop_master (st : ParkingSimState) (veh : Vehicle) (target : BuildingID)
    (m : MapModel) (start : LaneID)
    (hwf : wfStoreB st m = true)
    (hstart : (getL? m start).isSome = true)
    (hturns : ∀ t, t ∈ m.turns → (getL? m t.id.dst).isSome = true) :
    ∀ (fuel : Nat) (q : List (Dst × Nat)) (br : List (Nat × TurnID)) (D : LaneID → Prop),
      (∀ p : Dst × Nat, p ∈ q → (p.2 = start ∨ containsKey p.2 br = true)) →
      (∀ p : Dst × Nat, p ∈ q → Reaches m start p.2) →
      GoodChain start br →
      (∀ e : Nat × TurnID, e ∈ br → ∃ tu, tu ∈ m.turns ∧ tu.id = e.2) →
      (∀ l, D l → l = start ∨ st.get_all_free_spots ⟨l, 0⟩ veh target m = some []) →
      (∀ l, D l → ∀ t, t ∈ m.turns → t.id.src = l → containsKey t.id.dst br = true) →
      (∀ l, containsKey l br = true → (D l ∨ ∃ d : Dst, (d, l) ∈ q)) →
      (D start ∨ ∃ d : Dst, (d, start) ∈ q) →
      insertableCount m br + q.length < fuel →
      ∃ r, searchLoop st veh target m start fuel q br = some r ∧
        (r = none → ∀ l, Reaches m start l →
          l = start ∨ st.get_all_free_spots ⟨l, 0⟩ veh target m = some []) ∧
        (∀ steps spot pos, r = some (steps, spot, pos) →
          ∃ found results, found ≠ start ∧ Reaches m start found ∧
            st.get_all_free_spots ⟨found, 0⟩ veh target m = some results ∧
            (spot, pos) ∈ results ∧ (∀ y ∈ results, pos.dist ≤ y.2.dist) ∧
            altTL steps = true ∧
            (∃ t, steps.head? = some (PathStep.turn t) ∧ t.src = start) ∧
            steps.getLast? = some (PathStep.lane found) ∧
            PathStep.lane start ∉ steps ∧ steps ≠ []) := by
  intro fuel
  induction fuel with
  | zero =>
    intro q br D _ _ _ _ _ _ _ _ hfuel
    exact absurd hfuel (by omega)
  | succ f ih =>
    intro q br D hA1 hA2 hGC hC hD2 hD3 hD4 hD5 hfuel
    cases hpop : heapPop q with
    | none =>
      have hqnil : q = [] := heapPop_none_iff.mp hpop
      refine ⟨none, ?_, ?_, ?_⟩
      · unfold searchLoop
        rw [hpop]
      · intro _ l hreach
        have hDstart : D start := by
          rcases hD5 with h | ⟨d, hd⟩
          · exact h
          · rw [hqnil] at hd
            exact absurd hd (List.not_mem_nil _)
        have hclosed : ∀ l', Reaches m start l' → D l' := by
          intro l' hr
          induction hr with
          | refl => exact hDstart
          | step hr2 hmem hsrc ihr =>
            rename_i l2 t2
            have hkey := hD3 l2 ihr t2 hmem hsrc
            rcases hD4 _ hkey with h | ⟨d2, hd2⟩
            · exact h
            · rw [hqnil] at hd2
              exact absurd hd2 (List.not_mem_nil _)
        exact hD2 l (hclosed l hreach)
      · intro steps spot pos habs
        exact Option.noConfusion habs
    | some x =>
      obtain ⟨⟨d, current⟩, rest⟩ := x
      obtain ⟨hmem, hmax, hperm⟩ := heapPop_spec hpop
      have hcurA1 := hA1 (d, current) hmem
      have hcurA2 := hA2 (d, current) hmem
      have hgl : (getL? m current).isSome = true := by
        rcases hcurA1 with h | h
        · rw [show current = start from h]
          exact hstart
        · unfold containsKey at h
          obtain ⟨tid, htid⟩ := Option.isSome_iff_exists.mp h
          obtain ⟨tu, htu, htue⟩ := hC (current, tid) (lookupA_mem htid)
          have hdst : tid.dst = current := goodChain_lookup_dst hGC htid
          have hx := hturns tu htu
          rw [htue, hdst] at hx
          exact hx
      have hlen : q.length = rest.length + 1 := by
        rw [List.Perm.length_eq hperm]
        rfl
      have hrest_sub : ∀ p : Dst × Nat, p ∈ rest → p ∈ q := by
        intro p hp
        exact (List.Perm.mem_iff hperm).mpr (List.mem_cons_of_mem _ hp)
      obtain ⟨q2, br2, hexp⟩ :=
        @stepExpand_total m current d hgl (getTurnsCar m current) rest br
      obtain ⟨m1, m2, m3, m4, m5, m6, m7, m8⟩ := stepExpand_spec hexp
      have hts_turns : ∀ t, t ∈ getTurnsCar m current → t ∈ m.turns :=
        fun t ht => (getTurnsCar_mem.mp ht).1
      have hts_src : ∀ t, t ∈ getTurnsCar m current → t.id.src = current :=
        fun t ht => (getTurnsCar_mem.mp ht).2
      have hA1' : ∀ p : Dst × Nat, p ∈ q2 → (p.2 = start ∨ containsKey p.2 br2 = true) := by
        intro p hp
        rcases m4 p hp with h | ⟨t, ht, he⟩
        · rcases hA1 p (hrest_sub p h) with h2 | h2
          · exact Or.inl h2
          · exact Or.inr (m1 _ h2)
        · rw [he]
          exact Or.inr (m5 t ht)
      have hA2' : ∀ p : Dst × Nat, p ∈ q2 → Reaches m start p.2 := by
        intro p hp
        rcases m4 p hp with h | ⟨t, ht, he⟩
        · exact hA2 p (hrest_sub p h)
        · rw [he]
          exact Reaches.step hcurA2 (hts_turns t ht) (hts_src t ht)
      have hGC' : GoodChain start br2 := m7 start hGC hcurA1 hts_src
      have hC' : ∀ e : Nat × TurnID, e ∈ br2 → ∃ tu, tu ∈ m.turns ∧ tu.id = e.2 := by
        intro e he
        rcases m3 e he with h | ⟨t, ht, he2⟩
        · exact hC e h
        · rw [he2]
          exact ⟨t, hts_turns t ht, rfl⟩
      have hD3' : ∀ l, (D l ∨ l = current) → ∀ t, t ∈ m.turns → t.id.src = l →
          containsKey t.id.dst br2 = true := by
        intro l hl t ht hsrc
        rcases hl with h | h
        · exact m1 _ (hD3 l h t ht hsrc)
        · rw [h] at hsrc
          exact m5 t (getTurnsCar_mem.mpr ⟨ht, hsrc⟩)
      have hD4' : ∀ l, containsKey l br2 = true →
          ((D l ∨ l = current) ∨ ∃ d2 : Dst, (d2, l) ∈ q2) := by
        intro l hl
        rcases m6 l hl with h | h
        · rcases hD4 l h with h2 | ⟨d2, hd2⟩
          · exact Or.inl (Or.inl h2)
          · have hm2 : (d2, l) ∈ ((d, current) :: rest : List (Dst × Nat)) :=
              (List.Perm.mem_iff hperm).mp hd2
            rcases List.mem_cons.mp hm2 with he | hr
            · exact Or.inl (Or.inr (congrArg Prod.snd he))
            · exact Or.inr ⟨d2, m2 _ hr⟩
        · exact Or.inr h
      have hD5' : ((D start ∨ start = current) ∨ ∃ d2 : Dst, (d2, start) ∈ q2) := by
        rcases hD5 with h | ⟨d2, hd2⟩
        · exact Or.inl (Or.inl h)
        · have hm2 : (d2, start) ∈ ((d, current) :: rest : List (Dst × Nat)) :=
            (List.Perm.mem_iff hperm).mp hd2
          rcases List.mem_cons.mp hm2 with he | hr
          · exact Or.inl (Or.inr (congrArg Prod.snd he))
          · exact Or.inr ⟨d2, m2 _ hr⟩
      have hfuel' : insertableCount m br2 + q2.length < f := by
        have h8 := m8 hts_turns
        omega
      by_cases hcs : current = start
      · have hrun : searchLoop st veh target m start (f+1) q br
            = searchLoop st veh target m start f q2 br2 := by
          conv_lhs => unfold searchLoop
          simp only [hpop]
          rw [if_pos hcs]
          simp only [hexp]
        have hD2' : ∀ l, (D l ∨ l = current) → l = start ∨
            st.get_all_free_spots ⟨l, 0⟩ veh target m = some [] := by
          intro l hl
          rcases hl with h | h
          · exact hD2 l h
          · exact Or.inl (h.trans hcs)
        obtain ⟨r, hr, hnone, hsome⟩ := ih q2 br2 (fun l => D l ∨ l = current)
          hA1' hA2' hGC' hC' hD2' hD3' hD4' hD5' hfuel'
        exact ⟨r, by rw [hrun]; exact hr, hnone, hsome⟩
      · obtain ⟨results, hres⟩ := @gafs_total st veh target m hwf ⟨current, 0⟩
        cases hmin : minByPosDist results with
        | none =>
          have hres0 : results = [] := minByPosDist_none_iff.mp hmin
          have hrun : searchLoop st veh target m start (f+1) q br
              = searchLoop st veh target m start f q2 br2 := by
            conv_lhs => unfold searchLoop
            simp only [hpop]
            rw [if_neg hcs]
            simp only [hres, hmin, hexp]
          have hD2' : ∀ l, (D l ∨ l = current) → l = start ∨
              st.get_all_free_spots ⟨l, 0⟩ veh target m = some [] := by
            intro l hl
            rcases hl with h | h
            · exact hD2 l h
            · right
              rw [h, ← hres0]
              exact hres
          obtain ⟨r, hr, hnone, hsome⟩ := ih q2 br2 (fun l => D l ∨ l = current)
            hA1' hA2' hGC' hC' hD2' hD3' hD4' hD5' hfuel'
          exact ⟨r, by rw [hrun]; exact hr, hnone, hsome⟩
        | some sp =>
          obtain ⟨spot0, pos0⟩ := sp
          have hkey : containsKey current br = true := by
            rcases hcurA1 with h | h
            · exact absurd h hcs
            · exact h
          obtain ⟨steps0, hrec, haltl, hhead, hlast, hnostart, hne0⟩ :=
            reconstruct_correct hGC hkey hcs
          have hrun : searchLoop st veh target m start (f+1) q br
              = some (some (steps0, spot0, pos0)) := by
            conv_lhs => unfold searchLoop
            simp only [hpop]
            rw [if_neg hcs]
            simp only [hres, hmin, hrec]
          obtain ⟨hminmem, hminle⟩ := minByPosDist_spec hmin
          refine ⟨some (steps0, spot0, pos0), hrun, ?_, ?_⟩
          · intro habs
            exact Option.noConfusion habs
          · intro steps spot pos he
            have he2 : (steps0, spot0, pos0) = (steps, spot, pos) := Option.some.inj he
            have hs1 : steps0 = steps := congrArg Prod.fst he2
            have hs2 : spot0 = spot := congrArg (fun z => z.2.1) he2
            have hs3 : pos0 = pos := congrArg (fun z => z.2.2) he2
            refine ⟨current, results, hcs, hcurA2, hres, ?_, ?_, ?_, ?_, ?_, ?_, ?_⟩
            · rw [← hs2, ← hs3]
              exact hminmem
            · intro y hy
              rw [← hs3]
              exact hminle y hy
            · rw [← hs1]; exact haltl
            · rw [← hs1]; exact hhead
            · rw [← hs1]; exact hlast
            · rw [← hs1]; exact hnostart
            · rw [← hs1]; exact hne0

/-- C8: if some lane other than `start` is reachable by car-legal turns and
has a qualifying free spot, `path_to_free_parking_spot` returns a hit whose
steps alternate turn/lane in forward order, omit `Lane(start)`, begin with the
turn out of `start`, and end with the lane where the spot was found, the spot
having the smallest access distance among that lane's results; if no such
lane exists it returns the legitimate "no reachable free spot", not a
failure.  The hypotheses are the store/map consistency guaranteed by
construction. -/
theorem C8_search_correct (st : ParkingSimState) (start : LaneID) (veh : Vehicle)
    (target : BuildingID) (m : MapModel)
    (hwf : wfStoreB st m = true)
    (hstart : (getL? m start).isSome = true)
    (hturns : ∀ t, t ∈ m.turns → (getL? m t.id.dst).isSome = true) :
    ∃ r, st.path_to_free_parking_spot start veh target m = some r ∧
      ((∃ l, l ≠ start ∧ Reaches m start l ∧
          ∃ res, st.get_all_free_spots ⟨l, 0⟩ veh target m = some res ∧ res ≠ []) ↔
        ∃ steps spot pos, r = some (steps, spot, pos)) ∧
      (∀ steps spot pos, r = some (steps, spot, pos) →
        ∃ found results, found ≠ start ∧ Reaches m start found ∧
          st.get_all_free_spots ⟨found, 0⟩ veh target m = some results ∧
          (spot, pos) ∈ results ∧ (∀ y ∈ results, pos.dist ≤ y.2.dist) ∧
          altTL steps = true ∧
          (∃ t, steps.head? = some (PathStep.turn t) ∧ t.src = start) ∧
          steps.getLast? = some (PathStep.lane found) ∧
          PathStep.lane start ∉ steps ∧ steps ≠ []) := by
  have hfuel : insertableCount m ([] : List (Nat × TurnID))
      + ([((0 : Dst), start)] : List (Dst × Nat)).length < m.turns.length + 2 := by
    have hsub : (m.turns.map (fun t => t.id.dst)).dedup.length
        ≤ (m.turns.map (fun t => t.id.dst)).length :=
      List.Sublist.length_le (List.dedup_sublist _)
    have hmap : (m.turns.map (fun t => t.id.dst)).length = m.turns.length :=
      List.length_map _ _
    have hins : insertableCount m ([] : List (Nat × TurnID))
        ≤ (m.turns.map (fun t => t.id.dst)).dedup.length := by
      unfold insertableCount
      exact List.length_filter_le _ _
    simp only [List.length_cons, List.length_nil]
    omega
  obtain ⟨r, hr, hnone, hsome⟩ := searchLoop_master st veh target m start hwf hstart hturns
    (m.turns.length + 2) [((0 : Dst), start)] [] (fun _ => False)
    (fun p hp => by
      rcases List.mem_singleton.mp hp with rfl
      exact Or.inl rfl)
    (fun p hp => by
      rcases List.mem_singleton.mp hp with rfl
      exact Reaches.refl)
    trivial
    (fun e he => absurd he (List.not_mem_nil _))
    (fun l hl => absurd hl id)
    (fun l hl => absurd hl id)
    (fun l hl => by
      unfold containsKey lookupA at hl
      exact absurd hl (by simp))
    (Or.inr ⟨0, List.mem_singleton.mpr rfl⟩)
    hfuel
  refine ⟨r, hr, ⟨?_, ?_⟩, hsome⟩
  · rintro ⟨l, hlne, hlreach, res, hres, hresne⟩
    cases r with
    | none =>
      exfalso
      rcases hnone rfl l hlreach with h | h
      · exact hlne h
      · rw [hres] at h
        exact hresne (Option.some.inj h)
    | some hit =>
      obtain ⟨steps, spot, pos⟩ := hit
      exact ⟨steps, spot, pos, rfl⟩
  · rintro ⟨steps, spot, pos, he⟩
    obtain ⟨found, results, hfne, hfreach, hfres, hfmem, -, -, -, -, -, -⟩ :=
      hsome steps spot pos he
    exact ⟨found, hfne, hfreach, results, hfres, fun h0 => by
      rw [h0] at hfmem
      exact List.not_mem_nil _ hfmem⟩

/-- Witness map for the search: lane 1 connects by one turn to lane 2, which
reaches a one-spot lot. -/
def mS : MapModel :=
  { lanes := [⟨1, LaneType.driving, none, 0, 10⟩, ⟨2, LaneType.driving, none, 0, 10⟩],
    buildings := [],
    lots := [⟨1, ⟨2, 5⟩, 1⟩],
    turns := [⟨⟨100, 1, 2⟩, 3⟩],
    equivPos := fun p _ _ => p,
    parkingToDriving := fun _ => none,
    findClosestSidewalk := fun _ => none }

/-- Witness store for the search: the lot of `mS`, all spots free. -/
def stS : ParkingSimState :=
  { emptyStore with num_spots_per_lot := [(1, 1)], driving_to_lots := [(2, 1)] }

/-- C8 witness: on the concrete map a free spot is reachable, so the search
neither aborts nor reports "no reachable free spot". -/
theorem C8_search_correct_witness :
    stS.path_to_free_parking_spot 1 vehQ 99 mS ≠ none ∧
    stS.path_to_free_parking_spot 1 vehQ 99 mS ≠ some none := by
  obtain ⟨r, hr, hiff, hsound⟩ :=
    C8_search_correct stS 1 vehQ 99 mS (by decide) (by decide)
      (by
        intro t ht
        have ht2 : t = ⟨⟨100, 1, 2⟩, 3⟩ := List.mem_singleton.mp ht
        rw [ht2]
        decide)
  obtain ⟨steps, spot, pos, hrs⟩ := hiff.mp
    ⟨2, by decide,
      @Reaches.step mS 1 1 ⟨⟨100, 1, 2⟩, 3⟩ Reaches.refl (List.mem_singleton.mpr rfl) rfl,
      [(ParkingSpot.lot 1 0, ⟨2, 5⟩)], rfl, by decide⟩
  constructor
  · rw [hr]
    exact fun h => Option.noConfusion h
  · rw [hr]
    intro h
    rw [Option.some.inj h] at hrs
    exact Option.noConfusion hrs
